import Mathlib

/-!
# Verification of the `github-activity` renderer (PBnJK/backend)

Shallow embedding of `github-activity/cmd/github-activity.go`.

* A Go `string` is an immutable sequence of bytes, `GoString := List UInt8`;
  nothing forces it to be valid UTF-8 (slicing may cut a character in two).
* `for i, r := range text` is modelled by `rangeString`, the list of
  `(byte index, rune)` pairs the loop visits, obtained with Go's UTF-8 decoder
  (`decodeRune`, an ill-formed byte yields `RuneError` and advances one byte).
* Standard output is modelled by the text a computation has written; a
  computation ends normally with a value or with a run-time panic (`Run`).
-/

namespace GithubActivity

set_option maxRecDepth 100000

/-! ## Go strings and the `range` loop over a string -/

/-- A Go string: a sequence of bytes. -/
abbrev GoString := List UInt8

/-- The bytes of a string literal of the source (Go source text is UTF-8). -/
def lit (s : String) : GoString := s.data.flatMap String.utf8EncodeChar

/-- The rune `utf8.RuneError` (U+FFFD), produced for ill-formed input. -/
def RuneError : Nat := 0xFFFD

/-- The lowest second byte accepted after the lead byte `s0` (the table
`acceptRanges` of Go's `unicode/utf8`). -/
def acceptLo (s0 : Nat) : Nat :=
  if s0 = 0xE0 then 0xA0 else if s0 = 0xF0 then 0x90 else 0x80

/-- The highest second byte accepted after the lead byte `s0`. -/
def acceptHi (s0 : Nat) : Nat :=
  if s0 = 0xED then 0x9F else if s0 = 0xF4 then 0x8F else 0xBF

/-- Decoding after a lead byte `s0` of a two-byte sequence (`0xC2..0xDF`);
the argument is the rest of the string. -/
def decode2 (s0 : Nat) : GoString → Nat × Nat
  | c1 :: _ =>
    if c1.toNat < 0x80 ∨ 0xBF < c1.toNat then (RuneError, 1)
    else ((s0 % 32) * 64 + c1.toNat % 64, 2)
  | [] => (RuneError, 1)

/-- Decoding after a lead byte `s0` of a three-byte sequence (`0xE0..0xEF`). -/
def decode3 (s0 : Nat) : GoString → Nat × Nat
  | c1 :: c2 :: _ =>
    if c1.toNat < acceptLo s0 ∨ acceptHi s0 < c1.toNat then (RuneError, 1)
    else if c2.toNat < 0x80 ∨ 0xBF < c2.toNat then (RuneError, 1)
    else ((s0 % 16) * 4096 + (c1.toNat % 64) * 64 + c2.toNat % 64, 3)
  | _ => (RuneError, 1)

/-- Decoding after a lead byte `s0` of a four-byte sequence (`0xF0..0xF4`). -/
def decode4 (s0 : Nat) : GoString → Nat × Nat
  | c1 :: c2 :: c3 :: _ =>
    if c1.toNat < acceptLo s0 ∨ acceptHi s0 < c1.toNat then (RuneError, 1)
    else if c2.toNat < 0x80 ∨ 0xBF < c2.toNat then (RuneError, 1)
    else if c3.toNat < 0x80 ∨ 0xBF < c3.toNat then (RuneError, 1)
    else ((s0 % 8) * 262144 + (c1.toNat % 64) * 4096 + (c2.toNat % 64) * 64 + c3.toNat % 64, 4)
  | _ => (RuneError, 1)

/-- Go's UTF-8 decoder (`utf8.DecodeRuneInString`, the decoding `range`
performs): the first rune of `s` and the number of bytes it occupies.  An
ill-formed or incomplete sequence gives `RuneError` and width 1.  The table
`first` of the Go library is unfolded into comparisons on the lead byte. -/
def decodeRune : GoString → Nat × Nat
  | [] => (RuneError, 0)
  | c0 :: t =>
    if c0.toNat < 0x80 then (c0.toNat, 1)
    else if c0.toNat < 0xC2 ∨ 0xF4 < c0.toNat then (RuneError, 1)
    else if c0.toNat < 0xE0 then decode2 c0.toNat t
    else if c0.toNat < 0xF0 then decode3 c0.toNat t
    else decode4 c0.toNat t

/-- The iterations of `for i, r := range s` from byte offset `i` on: the pairs
`(i, r)` of start index and rune.  `fuel` bounds the number of iterations; the
length of `s` is always enough, every rune taking at least one byte. -/
def rangeAux : Nat → Nat → GoString → List (Nat × Nat)
  | 0, _, _ => []
  | _ + 1, _, [] => []
  | fuel + 1, i, c :: t =>
    let d := decodeRune (c :: t)
    (i, d.1) :: rangeAux fuel (i + d.2) ((c :: t).drop d.2)

/-- The pairs `(i, r)` visited by `for i, r := range s`. -/
def rangeString (s : GoString) : List (Nat × Nat) := rangeAux s.length 0 s

/-- The number of logical characters (runes) of a Go string,
`utf8.RuneCountInString`: the number of iterations of `range`. -/
def runeCount (s : GoString) : Nat := (rangeString s).length

/-- Go's `unicode.IsSpace`: the Latin-1 cases of its `switch`, then the
`White_Space` range table. -/
def IsSpace (r : Nat) : Bool :=
  if r ≤ 0xFF then
    r = 0x09 || r = 0x0A || r = 0x0B || r = 0x0C || r = 0x0D || r = 0x20 || r = 0x85 || r = 0xA0
  else
    r = 0x1680 || (0x2000 ≤ r && r ≤ 0x200A) || r = 0x2028 || r = 0x2029 || r = 0x202F
      || r = 0x205F || r = 0x3000

/-- The slice expression `text[:k]`: a run-time panic (`none`) when `k` is
negative or beyond the length, the first `k` bytes otherwise. -/
def slicePrefix (text : GoString) (k : Int) : Option GoString :=
  if 0 ≤ k ∧ k ≤ (text.length : Int) then some (text.take k.toNat) else none

/-! ## `truncate` -/

/-- The body of the `for i, r := range text` loop of `truncate`, run over the
remaining iterations with the current `lastSpaceIx` and `length`. -/
def truncateLoop (text : GoString) (maxLength : Int) :
    List (Nat × Nat) → Int → Int → Option GoString
  | [], _, _ => some text
  | (i, r) :: rest, lastSpaceIx, length =>
    if r = 0x0A then
      (slicePrefix text (i : Int)).map (fun p => p ++ lit "...")
    else
      let lastSpaceIx := if IsSpace r then (i : Int) else lastSpaceIx
      let length := length + 1
      if length > maxLength then
        (slicePrefix text lastSpaceIx).map (fun p => p ++ lit "...")
      else
        truncateLoop text maxLength rest lastSpaceIx length

/-- The function `truncate(text, maxLength)`; `none` is a run-time panic
(slice bounds out of range). -/
def truncate (text : GoString) (maxLength : Int) : Option GoString :=
  truncateLoop text maxLength (rangeString text) maxLength 0

/-! ## Output and panics -/

/-- The effect of running a piece of the program: the text it wrote to
standard output, and its result, `none` when it stopped in a run-time panic. -/
structure Run (α : Type) where
  out : GoString
  res : Option α
  deriving DecidableEq

/-- Normal termination without output. -/
def Run.pure {α : Type} (a : α) : Run α := ⟨[], some a⟩

/-- Sequencing: the second part runs only when the first did not panic; the
output of both is kept. -/
def Run.bind {α β : Type} (x : Run α) (f : α → Run β) : Run β :=
  match x.res with
  | none => ⟨x.out, none⟩
  | some a => ⟨x.out ++ (f a).out, (f a).res⟩

instance : Monad Run where
  pure := Run.pure
  bind := Run.bind

/-- Writing `s` to standard output (`fmt.Print` and `fmt.Printf` once their
operands are formatted). -/
def print (s : GoString) : Run Unit := ⟨s, some ()⟩

/-- The call `fmt.Println(s)`: `s` and a line break. -/
def println (s : GoString) : Run Unit := ⟨s ++ lit "\n", some ()⟩

/-- A run-time panic. -/
def panic {α : Type} : Run α := ⟨[], none⟩

/-- Evaluating an operand that may panic before anything is written. -/
def eval {α : Type} : Option α → Run α
  | some a => ⟨[], some a⟩
  | none => panic

/-! ## The data model -/

abbrev EventType := GoString

def COMMIT_COMMENT_EVENT : EventType := lit "CommitCommentEvent"
def CREATE_EVENT : EventType := lit "CreateEvent"
def DELETE_EVENT : EventType := lit "DeleteEvent"
def FORK_EVENT : EventType := lit "ForkEvent"
def GOLLUM_EVENT : EventType := lit "GollumEvent"
def ISSUE_COMMENT_EVENT : EventType := lit "IssueCommentEvent"
def ISSUES_EVENT : EventType := lit "IssuesEvent"
def MEMBER_EVENT : EventType := lit "MemberEvent"
def PUBLIC_EVENT : EventType := lit "PublicEvent"
def PULL_REQUEST_EVENT : EventType := lit "PullRequestEvent"
def PULL_REQUEST_REVIEW_EVENT : EventType := lit "PullRequestReviewEvent"
def PULL_REQUEST_REVIEW_COMMENT_EVENT : EventType := lit "PullRequestReviewCommentEvent"
def PULL_REQUEST_REVIEW_THREAD_EVENT : EventType := lit "PullRequestReviewThreadEvent"
def PUSH_EVENT : EventType := lit "PushEvent"
def RELEASE_EVENT : EventType := lit "ReleaseEvent"
def SPONSORSHIP_EVENT : EventType := lit "SponsorshipEvent"
def WATCH_EVENT : EventType := lit "WatchEvent"

/-- The constant `TRUNC_LEN`. -/
def TRUNC_LEN : Int := 32

abbrev Action := GoString

def ACT_ASSIGNED : Action := lit "assigned"
def ACT_CLOSED : Action := lit "closed"
def ACT_CREATED : Action := lit "created"
def ACT_DELETED : Action := lit "deleted"
def ACT_DEQUEUED : Action := lit "dequeued"
def ACT_EDITED : Action := lit "edited"
def ACT_LABELED : Action := lit "labeled"
def ACT_OPENED : Action := lit "opened"
def ACT_PUBLISHED : Action := lit "published"
def ACT_REOPENED : Action := lit "reopened"
def ACT_RESOLVED : Action := lit "resolved"
def ACT_REVIEW_REQUESTED : Action := lit "review_requested"
def ACT_REVIEW_REQUEST_REMOVED : Action := lit "review_request_removed"
def ACT_SYNCHRONIZE : Action := lit "synchronize"
def ACT_UNASSIGNED : Action := lit "unassigned"
def ACT_UNLABELED : Action := lit "unlabeled"
def ACT_UNRESOLVED : Action := lit "unresolved"

/-- The method `(a Action) String()`. -/
def Action.String (a : Action) : GoString :=
  if a = ACT_REVIEW_REQUESTED then lit "requested review"
  else if a = ACT_REVIEW_REQUEST_REMOVED then lit "removed review request"
  else if a = ACT_SYNCHRONIZE then lit "synchronized"
  else a

abbrev RefType := GoString

def RT_BRANCH : RefType := lit "branch"
def RT_TAG : RefType := lit "tag"
def RT_REPO : RefType := lit "repository"

structure Repo where
  Name : GoString
  deriving DecidableEq

structure Comment where
  Body : GoString
  deriving DecidableEq

structure Review where
  State : GoString
  deriving DecidableEq

structure User where
  Login : GoString
  deriving DecidableEq

/-- A pull request; `Number` is a `json.Number`, the literal text of the
number. -/
structure PullRequest where
  Number : GoString
  Title : GoString
  State : GoString
  User : User
  deriving DecidableEq

/-- An issue. -/
structure Issue where
  Number : GoString
  Title : GoString
  State : GoString
  User : User
  deriving DecidableEq

structure Author where
  Name : GoString
  Email : GoString
  deriving DecidableEq

structure Commit where
  Message : GoString
  SHA : GoString
  Author : Author
  Distinct : Bool
  deriving DecidableEq

structure Page where
  PageName : GoString
  Title : GoString
  Action : Action
  HTMLUrl : GoString
  deriving DecidableEq

structure Release where
  Title : GoString
  deriving DecidableEq

/-- The struct `Payload`; `Size` is a `json.Number`. -/
structure Payload where
  Action : Action
  Ref : GoString
  Assignee : User
  Member : User
  Reason : GoString
  Release : Release
  Size : GoString
  Forkee : Repo
  RefType : RefType
  Comment : Comment
  Review : Review
  PullRequest : PullRequest
  Issue : Issue
  Pages : List Page
  Commits : List Commit
  deriving DecidableEq

/-- The struct `Event`; its field `Type` is named `Typ` here, `Type` being a
keyword. -/
structure Event where
  Typ : EventType
  Repo : Repo
  Payload : Payload
  deriving DecidableEq

/-! ## The `String` methods

A `String` method that uses `truncate` is an `Option`: `none` stands for a
panic inside the method.  The limits passed are the constants 32 and 8, and
`truncate` does not panic for a limit that is not negative
(`truncate_isSome`), so that case never arises. -/

/-- The method `(pr PullRequest) String()`. -/
def PullRequest.String (pr : PullRequest) : Option GoString :=
  (truncate pr.Title TRUNC_LEN).map
    (fun t => lit "PR #" ++ pr.Number ++ lit ": '" ++ t ++ lit "'")

/-- The method `(i Issue) String()`. -/
def Issue.String (i : Issue) : Option GoString :=
  (truncate i.Title TRUNC_LEN).map
    (fun t => lit "Issue #" ++ i.Number ++ lit ": '" ++ t ++ lit "'")

/-- The method `(a Author) String()`. -/
def Author.String (a : Author) : GoString :=
  a.Name ++ lit " <" ++ a.Email ++ lit ">"

/-- The method `(c Commit) String()`; the operands are evaluated left to
right. -/
def Commit.String (c : Commit) : Option GoString :=
  (truncate c.SHA 8).bind (fun sha =>
    (truncate c.Message TRUNC_LEN).map (fun msg =>
      lit "Commit " ++ sha ++ lit " (" ++ Author.String c.Author ++ lit "): '" ++ msg ++ lit "'"))

/-- The method `(p Page) String()`. -/
def Page.String (p : Page) : GoString :=
  if p.Action = ACT_CREATED then
    lit "Created page '" ++ p.PageName ++ lit "' @ '" ++ p.HTMLUrl ++ lit "'"
  else
    lit "Edited page '" ++ p.PageName ++ lit "' @ '" ++ p.HTMLUrl ++ lit "'"

/-! ## The dispatch table `eventPrinters` -/

/-- The type `EventPrinter`, `func(Event)`: a printer writes to standard
output. -/
abbrev EventPrinter := Event → Run Unit

/-- The loop over `e.Payload.Pages` of the `GOLLUM_EVENT` printer, at index
`idx`, `n` being `len(e.Payload.Pages)`. -/
def gollumLoop (n : Nat) : Nat → List Page → Run Unit
  | _, [] => pure ()
  | idx, page :: rest => do
    print (lit "• " ++ Page.String page)
    if (idx : Int) = (n : Int) - 1 then println (lit ".") else println (lit ";")
    gollumLoop n (idx + 1) rest

/-- The loop over `e.Payload.Commits` of the `PUSH_EVENT` printer, at index
`idx`, `n` being `len(e.Payload.Commits)`. -/
def pushLoop (n : Nat) : Nat → List Commit → Run Unit
  | _, [] => pure ()
  | idx, commit :: rest => do
    if !commit.Distinct then
      pushLoop n (idx + 1) rest
    else
      if (idx : Int) < (n : Int) - 1 then
        let c ← eval (Commit.String commit)
        print (lit "├─ " ++ c)
        println []
      else
        let c ← eval (Commit.String commit)
        print (lit "└─ " ++ c)
      pushLoop n (idx + 1) rest

def printCommitComment : EventPrinter := fun e => do
  let body ← eval (truncate e.Payload.Comment.Body TRUNC_LEN)
  print (lit "commented on a commit on repo " ++ e.Repo.Name ++ lit ":\n  '" ++ body ++ lit "'")

def printCreate : EventPrinter := fun e => do
  print (lit "created a new " ++ e.Payload.RefType ++ lit " ")
  if e.Payload.RefType ≠ RT_REPO then
    print (lit "'" ++ e.Payload.Ref ++ lit "' on ")
  print (lit "'" ++ e.Repo.Name ++ lit "'")

def printDelete : EventPrinter := fun e =>
  print (lit "deleted the '" ++ e.Payload.Ref ++ lit "' " ++ e.Payload.RefType)

def printFork : EventPrinter := fun e =>
  print (lit "forked the '" ++ e.Payload.Forkee.Name ++ lit "' repo")

def printGollum : EventPrinter := fun e => do
  if e.Payload.Pages.length = 1 then
    print (lit "interacted with the following page:\n")
  else
    print (lit "interacted with the following pages:\n")
  gollumLoop e.Payload.Pages.length 0 e.Payload.Pages

def printIssueComment : EventPrinter := fun e => do
  let body ← eval (truncate e.Payload.Comment.Body TRUNC_LEN)
  let issue ← eval (Issue.String e.Payload.Issue)
  print (Action.String e.Payload.Action ++ lit " comment under " ++ issue ++ lit " on repo '"
    ++ e.Repo.Name ++ lit "':\n  '" ++ body ++ lit "'")

def printIssues : EventPrinter := fun e => do
  print (Action.String e.Payload.Action ++ lit " ")
  if e.Payload.Action = ACT_LABELED ∨ e.Payload.Action = ACT_UNLABELED then
    print (lit "label from ")
  else if e.Payload.Action = ACT_ASSIGNED ∨ e.Payload.Action = ACT_UNASSIGNED then
    print (lit "user " ++ e.Payload.Assignee.Login ++ lit " from ")
  let issue ← eval (Issue.String e.Payload.Issue)
  print issue

def printMember : EventPrinter := fun e =>
  if e.Payload.Action = ACT_ASSIGNED then
    print (lit "Assigned user '" ++ e.Payload.Member.Login ++ lit "' to repo '" ++ e.Repo.Name
      ++ lit "'")
  else
    print (lit "Edited user '" ++ e.Payload.Member.Login ++ lit "''s permissions on repo '"
      ++ e.Repo.Name ++ lit "'")

def printPublic : EventPrinter := fun e =>
  print (lit "Made repo '" ++ e.Repo.Name ++ lit "' public")

def printPullRequest : EventPrinter := fun e => do
  let pr ← eval (PullRequest.String e.Payload.PullRequest)
  print (Action.String e.Payload.Action ++ lit " " ++ pr ++ lit " in repo '" ++ e.Repo.Name
    ++ lit "'")
  if e.Payload.Action = ACT_DEQUEUED then
    let reason ← eval (truncate e.Payload.Reason TRUNC_LEN)
    print (lit "\n  reason: '" ++ reason ++ lit "'")

def printPullRequestReview : EventPrinter := fun e => do
  let pr ← eval (PullRequest.String e.Payload.PullRequest)
  print (Action.String e.Payload.Action ++ lit " review under " ++ pr)

def printPullRequestReviewComment : EventPrinter := fun e => do
  let body ← eval (truncate e.Payload.Comment.Body TRUNC_LEN)
  let pr ← eval (PullRequest.String e.Payload.PullRequest)
  print (Action.String e.Payload.Action ++ lit " review comment under " ++ pr ++ lit ":\n  '"
    ++ body ++ lit "'")

def printPullRequestReviewThread : EventPrinter := fun e => do
  let pr ← eval (PullRequest.String e.Payload.PullRequest)
  print (lit "marked review thread under " ++ pr ++ lit " as " ++ Action.String e.Payload.Action)

def printPush : EventPrinter := fun e => do
  if e.Payload.Size = lit "1" then
    print (lit "pushed 1 commit to repo '" ++ e.Repo.Name ++ lit "':\n")
  else
    print (lit "pushed " ++ e.Payload.Size ++ lit " commits to repo '" ++ e.Repo.Name
      ++ lit "':\n")
  pushLoop e.Payload.Commits.length 0 e.Payload.Commits

def printRelease : EventPrinter := fun e => do
  let title ← eval (truncate e.Payload.Release.Title TRUNC_LEN)
  print (Action.String e.Payload.Action ++ lit " release '" ++ title ++ lit "'")

def printSponsorship : EventPrinter := fun e =>
  print (lit "something related to the sponsors of repo '" ++ e.Repo.Name ++ lit "'")

def printWatch : EventPrinter := fun e =>
  print (lit "starred repo '" ++ e.Repo.Name ++ lit "'")

/-- The map `eventPrinters`, as the list of its key/value pairs in the order
of the map literal. -/
def eventPrinters : List (EventType × EventPrinter) :=
  [ (COMMIT_COMMENT_EVENT, printCommitComment),
    (CREATE_EVENT, printCreate),
    (DELETE_EVENT, printDelete),
    (FORK_EVENT, printFork),
    (GOLLUM_EVENT, printGollum),
    (ISSUE_COMMENT_EVENT, printIssueComment),
    (ISSUES_EVENT, printIssues),
    (MEMBER_EVENT, printMember),
    (PUBLIC_EVENT, printPublic),
    (PULL_REQUEST_EVENT, printPullRequest),
    (PULL_REQUEST_REVIEW_EVENT, printPullRequestReview),
    (PULL_REQUEST_REVIEW_COMMENT_EVENT, printPullRequestReviewComment),
    (PULL_REQUEST_REVIEW_THREAD_EVENT, printPullRequestReviewThread),
    (PUSH_EVENT, printPush),
    (RELEASE_EVENT, printRelease),
    (SPONSORSHIP_EVENT, printSponsorship),
    (WATCH_EVENT, printWatch) ]

/-- The 17 constants of type `EventType` declared in the `const` block, in
the order of their declaration. -/
def knownTags : List EventType :=
  [ COMMIT_COMMENT_EVENT, CREATE_EVENT, DELETE_EVENT, FORK_EVENT, GOLLUM_EVENT,
    ISSUE_COMMENT_EVENT, ISSUES_EVENT, MEMBER_EVENT, PUBLIC_EVENT, PULL_REQUEST_EVENT,
    PULL_REQUEST_REVIEW_EVENT, PULL_REQUEST_REVIEW_COMMENT_EVENT,
    PULL_REQUEST_REVIEW_THREAD_EVENT, PUSH_EVENT, RELEASE_EVENT, SPONSORSHIP_EVENT,
    WATCH_EVENT ]

/-- The call `eventPrinters[t](e)`: indexing a map with an absent key yields
the nil function, and calling it is a run-time panic. -/
def callPrinter (t : EventType) (e : Event) : Run Unit :=
  match eventPrinters.lookup t with
  | some printer => printer e
  | none => panic

/-- The rendering of an event: the text that `eventPrinters[e.Type](e)`
writes. -/
def render (e : Event) : GoString := (callPrinter e.Typ e).out

/-! ## `parseUserData` -/

/-- The type `error`: `none` is `nil`. -/
abbrev error := Option GoString

/-- The loop of `parseUserData` over `events`, at index `idx`, `n` being
`len(events)`. -/
def parseLoop (n : Nat) : Nat → List Event → Run Unit
  | _, [] => pure ()
  | idx, event :: rest => do
    print (lit "• ")
    callPrinter event.Typ event
    if (idx : Int) = (n : Int) - 1 then println (lit ".") else print (lit ";\n\n")
    parseLoop n (idx + 1) rest

/-- The function `parseUserData(username, events)`. -/
def parseUserData (username : GoString) (events : List Event) : Run error := do
  print (username ++ lit "'s GitHub activity:\n")
  parseLoop events.length 0 events
  return none

/-! ## `fetchFromAPI`

The network call `http.Get` and the JSON decoder are not part of the program:
they are parameters of the model. -/

/-- The constant `GITHUB_API` with its verb `%s` replaced by `user`. -/
def GITHUB_API (user : GoString) : GoString :=
  lit "https://api.github.com/users/" ++ user ++ lit "/events"

/-- What the program reads of an `http.Response`. -/
structure Response where
  StatusCode : Int
  Status : GoString
  Body : GoString
  deriving DecidableEq

/-- The constant `http.StatusNotFound`. -/
def StatusNotFound : Int := 404

/-- The constant `http.StatusOK`. -/
def StatusOK : Int := 200

/-- The function `fetchFromAPI(user)`: the events and the error returned.
`httpGet url` is the result of `http.Get(url)`, a response or an error
message; `decode body` is the result of decoding the body into `[]Event`. -/
def fetchFromAPI (httpGet : GoString → Except GoString Response)
    (decode : GoString → Except GoString (List Event)) (user : GoString) : List Event × error :=
  let url := GITHUB_API user
  match httpGet url with
  | .error err => ([], some err)
  | .ok res =>
    if res.StatusCode = StatusNotFound then
      ([], some (lit "No such user '" ++ user ++ lit "'!"))
    else if res.StatusCode ≠ StatusOK then
      ([], some (lit "Received bad status code: " ++ res.Status ++ lit "\n"))
    else
      match decode res.Body with
      | .error err => ([], some err)
      | .ok data => (data, none)

/-- The response a server gives with the given status, with an empty body. -/
def sampleResponse (code : Int) (status : String) : Response :=
  { StatusCode := code, Status := lit status, Body := [] }

/-! ## Sample values -/

/-- The zero value of `Payload`, what decoding leaves for absent fields. -/
def zeroPayload : Payload :=
  { Action := [], Ref := [], Assignee := ⟨[]⟩, Member := ⟨[]⟩, Reason := [], Release := ⟨[]⟩,
    Size := [], Forkee := ⟨[]⟩, RefType := [], Comment := ⟨[]⟩, Review := ⟨[]⟩,
    PullRequest := ⟨[], [], [], ⟨[]⟩⟩, Issue := ⟨[], [], [], ⟨[]⟩⟩, Pages := [], Commits := [] }

/-- A `WatchEvent` on repo "acme/widgets". -/
def sampleWatch : Event :=
  { Typ := WATCH_EVENT, Repo := ⟨lit "acme/widgets"⟩, Payload := zeroPayload }

/-- A `ForkEvent` whose fork target is "acme/widgets-fork". -/
def sampleFork : Event :=
  { Typ := FORK_EVENT, Repo := ⟨lit "acme/widgets"⟩,
    Payload := { zeroPayload with Forkee := ⟨lit "acme/widgets-fork"⟩ } }

/-- An event whose tag is not a key of `eventPrinters`. -/
def sampleUnknown : Event :=
  { Typ := lit "DiscussionEvent", Repo := ⟨lit "acme/widgets"⟩, Payload := zeroPayload }

/-- A commit by "Ann" with the given SHA, message and `distinct` flag. -/
def sampleCommit (sha msg : String) (distinct : Bool) : Commit :=
  { Message := lit msg, SHA := lit sha, Author := ⟨lit "Ann", lit "ann@acme.org"⟩,
    Distinct := distinct }

/-- A `PushEvent` on repo "acme/widgets" with `size` 3 and three commits, the
second of which is not distinct. -/
def samplePush : Event :=
  { Typ := PUSH_EVENT, Repo := ⟨lit "acme/widgets"⟩,
    Payload := { zeroPayload with
      Size := lit "3",
      Commits := [sampleCommit "a1b2c3d" "fix typo" true, sampleCommit "e4f5a6b" "merge" false,
        sampleCommit "c7d8e9f" "add tests" true] } }

/-- A `PushEvent` on repo "acme/widgets" with `size` 2 and two commits, the
last of which is not distinct. -/
def samplePushTail : Event :=
  { Typ := PUSH_EVENT, Repo := ⟨lit "acme/widgets"⟩,
    Payload := { zeroPayload with
      Size := lit "2",
      Commits := [sampleCommit "a1b2c3d" "fix typo" true, sampleCommit "e4f5a6b" "merge" false] } }

/-- A `GollumEvent` with two pages: "Home" created, "Setup" edited. -/
def sampleGollum : Event :=
  { Typ := GOLLUM_EVENT, Repo := ⟨lit "acme/widgets"⟩,
    Payload := { zeroPayload with
      Pages := [⟨lit "Home", lit "Home", ACT_CREATED, lit "https://w/Home"⟩,
        ⟨lit "Setup", lit "Setup", ACT_EDITED, lit "https://w/Setup"⟩] } }

/-- A `WatchEvent` on repo "acme/widgets" whose payload, unlike that of
`sampleWatch`, is filled with data the rule of the tag does not name. -/
def sampleWatchBusy : Event :=
  { Typ := WATCH_EVENT, Repo := ⟨lit "acme/widgets"⟩,
    Payload := { zeroPayload with
      Action := lit "started", Ref := lit "main", Reason := lit "none", Size := lit "7",
      Commits := [sampleCommit "a1b2c3d" "fix typo" true] } }

/-- A `PullRequestEvent` with action "dequeued" and a reason. -/
def sampleDequeued : Event :=
  { Typ := PULL_REQUEST_EVENT, Repo := ⟨lit "acme/widgets"⟩,
    Payload := { zeroPayload with
      Action := ACT_DEQUEUED, Reason := lit "merge conflict",
      PullRequest := ⟨lit "7", lit "Add tests", lit "open", ⟨lit "ann"⟩⟩ } }

/-- An `IssuesEvent` with action "assigned" and assignee "ann". -/
def sampleIssues : Event :=
  { Typ := ISSUES_EVENT, Repo := ⟨lit "acme/widgets"⟩,
    Payload := { zeroPayload with
      Action := lit "assigned", Assignee := ⟨lit "ann"⟩,
      Issue := ⟨lit "12", lit "Crash on start", lit "open", ⟨lit "bob"⟩⟩ } }

/-- A `CreateEvent` for the branch "dev". -/
def sampleCreate : Event :=
  { Typ := CREATE_EVENT, Repo := ⟨lit "acme/widgets"⟩,
    Payload := { zeroPayload with RefType := lit "branch", Ref := lit "dev" } }

/-- A `DeleteEvent` whose ref-type, as received, ends with a line break. -/
def sampleDeleteRaw : Event :=
  { Typ := DELETE_EVENT, Repo := ⟨lit "acme/widgets"⟩,
    Payload := { zeroPayload with RefType := lit "branch\n", Ref := lit "dev" } }

/-! ## Auxiliary notions used in the statements and proofs -/

/-- The first byte of `b`, if there is one, is an ASCII byte (below `0x80`). -/
def asciiHead (b : GoString) : Prop := ∀ c ∈ b.head?, c.toNat < 0x80

/-- The value of `lastSpaceIx` after the iterations `rs`, starting from
`init`: the byte index of the last whitespace rune among them, if any. -/
def lastSpace (init : Int) (rs : List (Nat × Nat)) : Int :=
  rs.foldl (fun acc p => if IsSpace p.2 then (p.1 : Int) else acc) init

/-- What the rendering of a pull request shows of it: number and title. -/
def prFields (pr : PullRequest) : GoString × GoString := (pr.Number, pr.Title)

/-- What the rendering of an issue shows of it: number and title. -/
def issueFields (i : Issue) : GoString × GoString := (i.Number, i.Title)

/-- What the rendering of a wiki page shows of it: name, action and URL. -/
def pageFields (p : Page) : GoString × Action × GoString := (p.PageName, p.Action, p.HTMLUrl)

/-- What the push rule shows of a commit: whether it is distinct and, for a
distinct commit, its SHA, author and message. -/
def commitFields (c : Commit) : Option (GoString × Author × GoString) :=
  if c.Distinct then some (c.SHA, c.Author, c.Message) else none

/-- Two events agree on the fields named in the rule of their tag, following
the table of per-tag rules of the specification, one line per tag: a field
that a rule names only under a condition has to agree only under that
condition. -/
def sameRuleFields (e1 e2 : Event) : Prop :=
  (e1.Typ = COMMIT_COMMENT_EVENT →
    e1.Repo.Name = e2.Repo.Name ∧ e1.Payload.Comment.Body = e2.Payload.Comment.Body) ∧
  (e1.Typ = CREATE_EVENT →
    e1.Payload.RefType = e2.Payload.RefType ∧ e1.Repo.Name = e2.Repo.Name ∧
      (e1.Payload.RefType ≠ RT_REPO → e1.Payload.Ref = e2.Payload.Ref)) ∧
  (e1.Typ = DELETE_EVENT →
    e1.Payload.Ref = e2.Payload.Ref ∧ e1.Payload.RefType = e2.Payload.RefType) ∧
  (e1.Typ = FORK_EVENT → e1.Payload.Forkee.Name = e2.Payload.Forkee.Name) ∧
  (e1.Typ = GOLLUM_EVENT →
    e1.Payload.Pages.map pageFields = e2.Payload.Pages.map pageFields) ∧
  (e1.Typ = ISSUE_COMMENT_EVENT →
    e1.Payload.Action = e2.Payload.Action ∧
      issueFields e1.Payload.Issue = issueFields e2.Payload.Issue ∧
      e1.Repo.Name = e2.Repo.Name ∧ e1.Payload.Comment.Body = e2.Payload.Comment.Body) ∧
  (e1.Typ = ISSUES_EVENT →
    e1.Payload.Action = e2.Payload.Action ∧
      issueFields e1.Payload.Issue = issueFields e2.Payload.Issue ∧
      (e1.Payload.Action = ACT_ASSIGNED ∨ e1.Payload.Action = ACT_UNASSIGNED →
        e1.Payload.Assignee.Login = e2.Payload.Assignee.Login)) ∧
  (e1.Typ = MEMBER_EVENT →
    e1.Payload.Action = e2.Payload.Action ∧
      e1.Payload.Member.Login = e2.Payload.Member.Login ∧ e1.Repo.Name = e2.Repo.Name) ∧
  (e1.Typ = PUBLIC_EVENT → e1.Repo.Name = e2.Repo.Name) ∧
  (e1.Typ = PULL_REQUEST_EVENT →
    e1.Payload.Action = e2.Payload.Action ∧
      prFields e1.Payload.PullRequest = prFields e2.Payload.PullRequest ∧
      e1.Repo.Name = e2.Repo.Name ∧
      (e1.Payload.Action = ACT_DEQUEUED → e1.Payload.Reason = e2.Payload.Reason)) ∧
  (e1.Typ = PULL_REQUEST_REVIEW_EVENT →
    e1.Payload.Action = e2.Payload.Action ∧
      prFields e1.Payload.PullRequest = prFields e2.Payload.PullRequest) ∧
  (e1.Typ = PULL_REQUEST_REVIEW_COMMENT_EVENT →
    e1.Payload.Action = e2.Payload.Action ∧
      prFields e1.Payload.PullRequest = prFields e2.Payload.PullRequest ∧
      e1.Payload.Comment.Body = e2.Payload.Comment.Body) ∧
  (e1.Typ = PULL_REQUEST_REVIEW_THREAD_EVENT →
    e1.Payload.Action = e2.Payload.Action ∧
      prFields e1.Payload.PullRequest = prFields e2.Payload.PullRequest) ∧
  (e1.Typ = PUSH_EVENT →
    e1.Payload.Size = e2.Payload.Size ∧ e1.Repo.Name = e2.Repo.Name ∧
      e1.Payload.Commits.map commitFields = e2.Payload.Commits.map commitFields) ∧
  (e1.Typ = RELEASE_EVENT →
    e1.Payload.Action = e2.Payload.Action ∧
      e1.Payload.Release.Title = e2.Payload.Release.Title) ∧
  (e1.Typ = SPONSORSHIP_EVENT → e1.Repo.Name = e2.Repo.Name) ∧
  (e1.Typ = WATCH_EVENT → e1.Repo.Name = e2.Repo.Name)

/-- The connector and text of one commit line of a push: "├─ ", the commit and
a line break, or "└─ " and the commit. -/
def isTreeLine (c : Commit) (line : GoString) : Prop :=
  ∃ s, Commit.String c = some s ∧ (line = lit "├─ " ++ s ++ lit "\n" ∨ line = lit "└─ " ++ s)

/-- The 13 tags whose rule ends its text with a fixed character that is not a
line break, whatever the payload. -/
def closedTags : List EventType :=
  [ COMMIT_COMMENT_EVENT, CREATE_EVENT, FORK_EVENT, ISSUE_COMMENT_EVENT, ISSUES_EVENT,
    MEMBER_EVENT, PUBLIC_EVENT, PULL_REQUEST_EVENT, PULL_REQUEST_REVIEW_EVENT,
    PULL_REQUEST_REVIEW_COMMENT_EVENT, RELEASE_EVENT, SPONSORSHIP_EVENT, WATCH_EVENT ]

/-- The text `s` ends with a line-break character. -/
def endsWithLineBreak (s : GoString) : Prop := s.getLast? = some 0x0A

end GithubActivity

/-!
# The stores of `task-cli` and `expense-tracker`

Shallow embedding of the parts of `task-cli/cmd/task-cli.go` and
`expense-tracker/cmd/expense-tracker.go` that allocate IDs and handle the
monthly limits.

* A Go `map[uint64]T` is modelled by the list of its key/value pairs
  (`GoMap`); a map holds every key at most once and its keys are below `2^64`
  (`GoMap.WF`).  Arithmetic on `uint64` wraps modulo `2^64`.
* `float64` is a parameter: a type `F` with the operations the program uses
  (`Float64Ops`).  `time.Now()` is a parameter of the functions that call it.
-/

namespace Backend

/-- The number of values of type `uint64`. -/
def uint64Size : Nat := 2 ^ 64

/-- A Go map `map[uint64]α`: its key/value pairs. -/
abbrev GoMap (α : Type) := List (Nat × α)

/-- The keys of a map. -/
def GoMap.keys {α : Type} (m : GoMap α) : List Nat := m.map Prod.fst

/-- The lookup `v, ok := m[k]`: `some v` when `ok`. -/
def GoMap.get {α : Type} (m : GoMap α) (k : Nat) : Option α := List.lookup k m

/-- The assignment `m[k] = v`. -/
def GoMap.set {α : Type} (m : GoMap α) (k : Nat) (v : α) : GoMap α :=
  (k, v) :: m.filter (fun p => p.1 ≠ k)

/-- A well-formed map: no key occurs twice and every key is a `uint64`. -/
def GoMap.WF {α : Type} (m : GoMap α) : Prop :=
  (GoMap.keys m).Nodup ∧ ∀ k ∈ GoMap.keys m, k < uint64Size

/-- The keys of the map collected in a slice and sorted with `slices.Sort`
(`getSortedTasksIDs`, `getSortedExpenseIDs`). -/
def sortedKeys {α : Type} (m : GoMap α) : List Nat :=
  (GoMap.keys m).insertionSort (fun a b => a ≤ b)

/-- The loop `for cidx, cid := range ids`, the same text in `addTask` and in
`addExpense`, from index `cidx` on; `has k` is the test `_, ok := m[k]`,
`rest` the elements of `ids` from `cidx` on, `id` the current value of the
variable `id`.  The result is the value of `id` after the loop, `none` when
the index expression `ids[cidx+1]` is out of range. -/
def allocLoop (has : Nat → Bool) (ids : List Nat) (lastIdx : Int) :
    Nat → List Nat → Nat → Option Nat
  | _, [], id => some id
  | cidx, cid :: rest, id =>
    if 1 < cid ∧ has (cid - 1) = false then some (cid - 1)
    else if (cidx : Int) = lastIdx then some ((cid + 1) % uint64Size)
    else
      match ids[cidx + 1]? with
      | none => none
      | some next =>
        if (cid + 1) % uint64Size ≠ next then some ((cid + 1) % uint64Size)
        else allocLoop has ids lastIdx (cidx + 1) rest id

/-- The ID chosen by `addTask` and `addExpense` for the map `m`: the sorted
IDs, `id := uint64(1)`, `lastIdx := len(ids) - 1`, then the loop. -/
def nextID {α : Type} (m : GoMap α) : Option Nat :=
  let ids := sortedKeys m
  allocLoop (fun k => (GoMap.get m k).isSome) ids ((ids.length : Int) - 1) 0 ids 1

/-- A `time.Time`: the month (`Month()`, 1 for January to 12 for December)
and the rest of the instant. -/
structure Time where
  month : Int
  stamp : Int
  deriving DecidableEq

/-- The zero value of `time.Time`, whose month is January. -/
def zeroTime : Time := ⟨1, 0⟩

/-- The operations on `float64` that the program uses. -/
structure Float64Ops (F : Type) where
  zero : F
  minusOne : F
  add : F → F → F
  sub : F → F → F
  lt : F → F → Bool
  le : F → F → Bool
  eq : F → F → Bool
  parse : String → F
  format2 : F → String

/-- Whole numbers as a stand-in for `float64` in the sample values: they are
exactly representable and the operations agree on them. -/
def sampleOps : Float64Ops Int :=
  { zero := 0, minusOne := -1, add := fun a b => a + b, sub := fun a b => a - b,
    lt := fun a b => decide (a < b), le := fun a b => decide (a ≤ b),
    eq := fun a b => decide (a = b), parse := fun s => s.toInt?.getD 0,
    format2 := fun a => toString a }

end Backend

namespace TaskCli

open Backend

set_option linter.dupNamespace false

/-- The type `TaskStatus`. -/
abbrev TaskStatus := Int

def STATUS_TODO : TaskStatus := 0
def STATUS_IN_PROGRESS : TaskStatus := 1
def STATUS_DONE : TaskStatus := 2

structure Task where
  CreatedAt : Time
  UpdatedAt : Time
  Description : String
  Id : Nat
  Status : TaskStatus
  deriving DecidableEq

/-- The function `createTask`; `now1` and `now2` are the results of its two
calls of `time.Now()`. -/
def createTask (id : Nat) (desc : String) (now1 now2 : Time) : Task :=
  { CreatedAt := now1, UpdatedAt := now2, Description := desc, Id := id, Status := STATUS_TODO }

structure Tasks where
  Tasks : GoMap Task
  deriving DecidableEq

/-- The function `getSortedTasksIDs`, on the store `tasks`. -/
def getSortedTasksIDs (tasks : Tasks) : List Nat := sortedKeys tasks.Tasks

/-- The method `addTask`, called on the global store `tasks`, which is also
its receiver: the store after the call and the line printed; `none` is a
run-time panic. -/
def addTask (t : Tasks) (desc : String) (now1 now2 : Time) : Option (Tasks × String) :=
  match nextID t.Tasks with
  | none => none
  | some id =>
    some ({ Tasks := GoMap.set t.Tasks id (createTask id desc now1 now2) },
      "Task added successfully! ID: " ++ toString id ++ "\n")

/-- A store with the tasks 1, 2 and 4. -/
def sampleTasks : Tasks :=
  { Tasks := [(4, createTask 4 "d" ⟨3, 40⟩ ⟨3, 40⟩), (1, createTask 1 "a" ⟨3, 10⟩ ⟨3, 10⟩),
      (2, createTask 2 "b" ⟨3, 20⟩ ⟨3, 20⟩)] }

end TaskCli

namespace ExpenseTracker

open Backend

set_option linter.dupNamespace false

structure Expense where
  CreatedAt : Time
  Description : String
  Amount : String
  ID : Nat
  deriving DecidableEq

/-- The zero value of `Expense`, what indexing the map with an absent key
yields. -/
def zeroExpense : Expense := { CreatedAt := zeroTime, Description := "", Amount := "", ID := 0 }

/-- The function `toJSONNumber`: the amount with two decimals. -/
def toJSONNumber {F : Type} (ops : Float64Ops F) (amount : F) : String := ops.format2 amount

/-- The function `createExpense`; `now` is the result of `time.Now()`. -/
def createExpense {F : Type} (ops : Float64Ops F) (id : Nat) (desc : String) (amount : F)
    (now : Time) : Expense :=
  { CreatedAt := now, Description := desc, Amount := toJSONNumber ops amount, ID := id }

/-- The struct `Expenses`; `Limits` is an array of 12 `float64`. -/
structure Expenses (F : Type) where
  Expenses : GoMap Expense
  Limits : Fin 12 → F

/-- The constant `NOT_OVER`, -1.0. -/
def NOT_OVER {F : Type} (ops : Float64Ops F) : F := ops.minusOne

/-- The constant `EXACTLY_EQUAL`, 0.0. -/
def EXACTLY_EQUAL {F : Type} (ops : Float64Ops F) : F := ops.zero

/-- The method `getSortedExpenseIDs`. -/
def getSortedExpenseIDs {F : Type} (e : Expenses F) : List Nat := sortedKeys e.Expenses

/-- The method `getSummaryByMonth`; the map is traversed in the order of its
pairs. -/
def getSummaryByMonth {F : Type} (ops : Float64Ops F) (e : Expenses F) (month : Int) : F :=
  e.Expenses.foldl
    (fun total p =>
      if p.2.CreatedAt.month ≠ month then total else ops.add total (ops.parse p.2.Amount))
    ops.zero

/-- The index expression `e.Limits[i]` on the array of 12 entries: `none` is
the run-time panic "index out of range". -/
def limitAt {F : Type} (e : Expenses F) (i : Int) : Option F :=
  if h : 0 ≤ i ∧ i < 12 then some (e.Limits ⟨i.toNat, by omega⟩) else none

/-- The method `getAmountOverLimit(month)`; `none` is a run-time panic. -/
def getAmountOverLimit {F : Type} (ops : Float64Ops F) (e : Expenses F) (month : Int) :
    Option F :=
  match limitAt e month with
  | none => none
  | some limit =>
    if ops.eq limit ops.zero then some (NOT_OVER ops)
    else
      let total := getSummaryByMonth ops e month
      if ops.lt total limit then some (NOT_OVER ops)
      else if ops.eq total limit then some (EXACTLY_EQUAL ops)
      else some (ops.sub total limit)

/-- The method `addExpense`: the store after the call, the ID returned and the
line printed; `none` is a run-time panic. -/
def addExpense {F : Type} (ops : Float64Ops F) (e : Expenses F) (desc : String) (amount : F)
    (now : Time) : Option (Expenses F × Nat × String) :=
  match nextID e.Expenses with
  | none => none
  | some id =>
    some ({ e with Expenses := GoMap.set e.Expenses id (createExpense ops id desc amount now) },
      id, "Expense added successfully (ID: " ++ toString id ++ ")\n")

/-- The effect of a command handler: the store it leaves, the text written,
and the error returned (`some none` is `nil`); `res = none` is a run-time
panic. -/
structure Outcome (F : Type) where
  store : Expenses F
  out : String
  res : Option (Option String)

/-- The function `getAmount`, on the value of the flag `--amount`. -/
def getAmount {F : Type} (ops : Float64Ops F) (amount : F) : Except String F :=
  if ops.le amount ops.zero then
    .error "An expense must have a positive, non-zero amount!"
  else .ok amount

/-- The handler `HandleSetLimit`; `amountSet` and `monthSet` are
`ctx.IsSet("amount")` and `ctx.IsSet("month")`, `amount` and `month` the
values of the flags. -/
def HandleSetLimit {F : Type} (ops : Float64Ops F) (e : Expenses F) (amountSet : Bool)
    (amount : F) (monthSet : Bool) (month : Int) : Outcome F :=
  if !amountSet then ⟨e, "", some (some "Must provide a limit amount!")⟩
  else
    match getAmount ops amount with
    | .error err => ⟨e, "", some (some err)⟩
    | .ok amount =>
      if monthSet then
        if h : month < 1 ∨ month > 12 then
          ⟨e, "", some (some ("'" ++ toString month
            ++ "' is not a valid month (must be range from 1-12)\n"))⟩
        else
          ⟨{ e with Limits := Function.update e.Limits ⟨(month - 1).toNat, by omega⟩ amount },
            "Set monthly spending limit successfully\n", some none⟩
      else
        ⟨{ e with Limits := fun _ => amount }, "Set spending limit successfully\n", some none⟩

/-- The handler `HandleAdd`; `description` is the value of the flag
`--description`, `amountSet` is `ctx.IsSet("amount")`, `amount` the value of
the flag, `now` the result of `time.Now()`. -/
def HandleAdd {F : Type} (ops : Float64Ops F) (e : Expenses F) (description : String)
    (amountSet : Bool) (amount : F) (now : Time) : Outcome F :=
  let description := if description = "" then "an expense" else description
  if !amountSet then ⟨e, "", some (some "Must provide the amount of the expense!")⟩
  else if ops.le amount ops.zero then
    ⟨e, "", some (some "An expense must have a positive, non-zero amount!")⟩
  else
    match addExpense ops e description amount now with
    | none => ⟨e, "", none⟩
    | some (e1, id, out) =>
      let month := ((GoMap.get e1.Expenses id).getD zeroExpense).CreatedAt.month
      match getAmountOverLimit ops e1 month with
      | none => ⟨e1, out, none⟩
      | some over =>
        if ops.eq over (NOT_OVER ops) then ⟨e1, out, some none⟩
        else if ops.eq over (EXACTLY_EQUAL ops) then
          ⟨e1, out ++ "Warning! This expense puts you exactly at your monthly spending limit!\n",
            some none⟩
        else
          ⟨e1, out ++ "Warning! This expense puts you over your your monthly spending limit by $"
            ++ ops.format2 over ++ "!\n", some none⟩

/-- A store without expenses and without limits (all entries 0). -/
def sampleExpenses : Expenses Int := { Expenses := [], Limits := fun _ => 0 }

end ExpenseTracker

namespace GithubActivity

set_option maxRecDepth 100000

/-! ## Facts about the decoder -/

theorem decode2_width (s0 : Nat) (t : GoString) :
    1 ≤ (decode2 s0 t).2 ∧ (decode2 s0 t).2 ≤ t.length + 1 := by
  unfold decode2
  split
  · split <;> simp
  · simp

theorem decode3_width (s0 : Nat) (t : GoString) :
    1 ≤ (decode3 s0 t).2 ∧ (decode3 s0 t).2 ≤ t.length + 1 := by
  unfold decode3
  split
  · split_ifs <;> simp
  · simp

theorem decode4_width (s0 : Nat) (t : GoString) :
    1 ≤ (decode4 s0 t).2 ∧ (decode4 s0 t).2 ≤ t.length + 1 := by
  unfold decode4
  split
  · split_ifs <;> simp
  · simp

theorem decodeRune_width (c : UInt8) (t : GoString) :
    1 ≤ (decodeRune (c :: t)).2 ∧ (decodeRune (c :: t)).2 ≤ t.length + 1 := by
  simp only [decodeRune]
  split_ifs
  · simp
  · simp
  · exact decode2_width _ _
  · exact decode3_width _ _
  · exact decode4_width _ _

theorem acceptLo_ge (s0 : Nat) : 0x80 ≤ acceptLo s0 := by
  unfold acceptLo; split_ifs <;> omega

theorem decode2_append (s0 : Nat) (t b : GoString) (hb : asciiHead b) :
    decode2 s0 (t ++ b) = decode2 s0 t := by
  cases t with
  | nil =>
    cases b with
    | nil => rfl
    | cons c b =>
      have : c.toNat < 0x80 := hb c (by simp)
      simp [decode2, this]
  | cons c1 t => simp [decode2]

theorem decode3_append (s0 : Nat) (t b : GoString) (hb : asciiHead b) :
    decode3 s0 (t ++ b) = decode3 s0 t := by
  have hlo := acceptLo_ge s0
  rcases t with _ | ⟨c1, _ | ⟨c2, t⟩⟩
  · rcases b with _ | ⟨c, _ | ⟨c', b⟩⟩
    · rfl
    · rfl
    · have : c.toNat < 0x80 := hb c (by simp)
      have : c.toNat < acceptLo s0 := by omega
      simp [decode3, this]
  · rcases b with _ | ⟨c, b⟩
    · rfl
    · have : c.toNat < 0x80 := hb c (by simp)
      simp [decode3, this]
  · simp [decode3]

theorem decode4_append (s0 : Nat) (t b : GoString) (hb : asciiHead b) :
    decode4 s0 (t ++ b) = decode4 s0 t := by
  have hlo := acceptLo_ge s0
  rcases t with _ | ⟨c1, _ | ⟨c2, _ | ⟨c3, t⟩⟩⟩
  · rcases b with _ | ⟨c, _ | ⟨c', _ | ⟨c'', b⟩⟩⟩
    · rfl
    · rfl
    · rfl
    · have : c.toNat < 0x80 := hb c (by simp)
      have : c.toNat < acceptLo s0 := by omega
      simp [decode4, this]
  · rcases b with _ | ⟨c, _ | ⟨c', b⟩⟩
    · rfl
    · rfl
    · have : c.toNat < 0x80 := hb c (by simp)
      simp [decode4, this]
  · rcases b with _ | ⟨c, b⟩
    · rfl
    · have : c.toNat < 0x80 := hb c (by simp)
      simp [decode4, this]
  · simp [decode4]

/-- Bytes after the end of a string that start with an ASCII byte do not change
how its first rune is decoded. -/
theorem decodeRune_append (c : UInt8) (t b : GoString) (hb : asciiHead b) :
    decodeRune (c :: t ++ b) = decodeRune (c :: t) := by
  simp only [decodeRune, List.cons_append]
  rw [decode2_append _ _ _ hb, decode3_append _ _ _ hb, decode4_append _ _ _ hb]

theorem decode2_take (s0 : Nat) (t : GoString) (m : Nat) (h : (decode2 s0 t).2 ≤ m + 1) :
    decode2 s0 (t.take m) = decode2 s0 t := by
  rcases t with _ | ⟨c1, t⟩
  · simp
  · cases m with
    | zero =>
      simp only [decode2] at h ⊢
      split_ifs at h ⊢ <;> simp_all [decode2]
    | succ m => simp [decode2]

theorem decode3_take (s0 : Nat) (t : GoString) (m : Nat) (h : (decode3 s0 t).2 ≤ m + 1) :
    decode3 s0 (t.take m) = decode3 s0 t := by
  rcases t with _ | ⟨c1, _ | ⟨c2, t⟩⟩
  · simp
  · rcases m with _ | m <;> simp [decode3]
  · rcases m with _ | _ | m
    · simp only [decode3] at h ⊢
      split_ifs at h ⊢ <;> simp_all [decode3]
    · simp only [decode3] at h ⊢
      split_ifs at h ⊢ <;> simp_all [decode3]
    · simp [decode3]

theorem decode4_take (s0 : Nat) (t : GoString) (m : Nat) (h : (decode4 s0 t).2 ≤ m + 1) :
    decode4 s0 (t.take m) = decode4 s0 t := by
  rcases t with _ | ⟨c1, _ | ⟨c2, _ | ⟨c3, t⟩⟩⟩
  · simp
  · rcases m with _ | m <;> simp [decode4]
  · rcases m with _ | _ | m <;> simp [decode4]
  · rcases m with _ | _ | _ | m
    · simp only [decode4] at h ⊢
      split_ifs at h ⊢ <;> simp_all [decode4]
    · simp only [decode4] at h ⊢
      split_ifs at h ⊢ <;> simp_all [decode4]
    · simp only [decode4] at h ⊢
      split_ifs at h ⊢ <;> simp_all [decode4]
    · simp [decode4]

/-- A prefix that contains the whole first rune decodes to the same rune. -/
theorem decodeRune_take (c : UInt8) (t : GoString) (m : Nat)
    (h : (decodeRune (c :: t)).2 ≤ m + 1) :
    decodeRune (c :: t.take m) = decodeRune (c :: t) := by
  simp only [decodeRune] at h ⊢
  split_ifs at h ⊢
  · rfl
  · rfl
  · exact decode2_take _ _ _ h
  · exact decode3_take _ _ _ h
  · exact decode4_take _ _ _ h

/-! ## Facts about the `range` loop -/

theorem rangeAux_cons (fuel i : Nat) (c : UInt8) (t : GoString) :
    rangeAux (fuel + 1) i (c :: t) =
      (i, (decodeRune (c :: t)).1) ::
        rangeAux fuel (i + (decodeRune (c :: t)).2) ((c :: t).drop (decodeRune (c :: t)).2) := by
  simp [rangeAux]

/-- Any amount of fuel that is at least the length of the string gives the
same iterations: the loop ends by exhausting the string, not the fuel. -/
theorem rangeAux_fuel (f1 : Nat) : ∀ (f2 i : Nat) (s : GoString),
    s.length ≤ f1 → s.length ≤ f2 → rangeAux f1 i s = rangeAux f2 i s := by
  induction f1 with
  | zero =>
    intro f2 i s h1 _
    have : s = [] := List.length_eq_zero.mp (by omega)
    subst this
    cases f2 <;> simp [rangeAux]
  | succ f1 ih =>
    intro f2 i s h1 h2
    cases s with
    | nil => cases f2 <;> simp [rangeAux]
    | cons c t =>
      cases f2 with
      | zero => simp at h2
      | succ f2 =>
        have hw := decodeRune_width c t
        rw [rangeAux_cons, rangeAux_cons]
        congr 1
        apply ih <;> simp only [List.length_drop, List.length_cons] at * <;> omega

/-- Unfolding of one iteration of `range`, with enough fuel in both places. -/
theorem rangeAux_step (fuel i : Nat) (c : UInt8) (t : GoString) (h : t.length + 1 ≤ fuel) :
    rangeAux fuel i (c :: t) =
      (i, (decodeRune (c :: t)).1) ::
        rangeAux fuel (i + (decodeRune (c :: t)).2) ((c :: t).drop (decodeRune (c :: t)).2) := by
  cases fuel with
  | zero => omega
  | succ f =>
    rw [rangeAux_cons]
    congr 1
    have hw := decodeRune_width c t
    apply rangeAux_fuel <;> simp only [List.length_drop, List.length_cons] <;> omega

/-- The `k`-th iteration starts at a byte index that is at least `k` past the
start and lies inside the string. -/
theorem rangeAux_index (fuel : Nat) : ∀ (i : Nat) (s : GoString) (k j r : Nat),
    (rangeAux fuel i s)[k]? = some (j, r) → i + k ≤ j ∧ j < i + s.length := by
  induction fuel with
  | zero => intro i s k j r h; simp [rangeAux] at h
  | succ fuel ih =>
    intro i s k j r h
    cases s with
    | nil => simp [rangeAux] at h
    | cons c t =>
      have hw := decodeRune_width c t
      rw [rangeAux_cons] at h
      cases k with
      | zero =>
        simp at h
        simp
        omega
      | succ k =>
        simp only [List.getElem?_cons_succ] at h
        have := ih _ _ _ _ _ h
        simp only [List.length_drop, List.length_cons] at this ⊢
        omega

/-- A string has at most as many runes as bytes. -/
theorem rangeAux_length_le (fuel : Nat) : ∀ (i : Nat) (s : GoString),
    (rangeAux fuel i s).length ≤ s.length := by
  induction fuel with
  | zero => intro i s; simp [rangeAux]
  | succ fuel ih =>
    intro i s
    cases s with
    | nil => simp [rangeAux]
    | cons c t =>
      have hw := decodeRune_width c t
      rw [rangeAux_cons]
      have := ih (i + (decodeRune (c :: t)).2) ((c :: t).drop (decodeRune (c :: t)).2)
      simp only [List.length_drop, List.length_cons] at this ⊢
      omega

theorem runeCount_le_length (s : GoString) : runeCount s ≤ s.length :=
  rangeAux_length_le _ _ _

/-- Cutting the string at the start of its `k`-th rune keeps exactly the
first `k` iterations. -/
theorem rangeAux_take (fuel : Nat) : ∀ (i : Nat) (s : GoString) (k j r : Nat),
    s.length ≤ fuel → (rangeAux fuel i s)[k]? = some (j, r) →
    rangeAux fuel i (s.take (j - i)) = (rangeAux fuel i s).take k := by
  induction fuel with
  | zero => intro i s k j r _ h; simp [rangeAux] at h
  | succ fuel ih =>
    intro i s k j r hf h
    cases s with
    | nil => simp [rangeAux] at h
    | cons c t =>
      have hw := decodeRune_width c t
      cases k with
      | zero =>
        rw [rangeAux_cons] at h
        simp at h
        simp [h.1, rangeAux]
      | succ k =>
        have hidx := rangeAux_index _ _ _ _ _ _ h
        rw [rangeAux_cons] at h
        simp only [List.getElem?_cons_succ] at h
        have hidx2 := rangeAux_index _ _ _ _ _ _ h
        obtain ⟨m, hm⟩ : ∃ m, j - i = m + 1 := ⟨j - i - 1, by omega⟩
        rw [hm, List.take_succ_cons, rangeAux_cons (fuel) i c t, List.take_succ_cons]
        have hd : decodeRune (c :: t.take m) = decodeRune (c :: t) :=
          decodeRune_take c t m (by omega)
        have hlen : (t.take m).length + 1 ≤ fuel + 1 := by
          simp only [List.length_take, List.length_cons] at hf ⊢; omega
        rw [rangeAux_step _ _ _ _ hlen, hd]
        congr 1
        have hdrop : (c :: t.take m).drop (decodeRune (c :: t)).2
            = ((c :: t).drop (decodeRune (c :: t)).2).take (j - (i + (decodeRune (c :: t)).2)) := by
          rw [← List.take_succ_cons, List.drop_take]
          congr 1
          omega
        rw [hdrop]
        have hfu : ((c :: t).drop (decodeRune (c :: t)).2).length ≤ fuel := by
          simp only [List.length_drop, List.length_cons] at hf ⊢; omega
        have := ih _ _ _ _ _ hfu h
        rw [← this]
        apply rangeAux_fuel
        · simp only [List.length_take, List.length_drop, List.length_cons] at hf ⊢; omega
        · simp only [List.length_take, List.length_drop, List.length_cons] at hf ⊢; omega

theorem rangeAux_nil (fuel i : Nat) : rangeAux fuel i [] = [] := by
  cases fuel <;> simp [rangeAux]

/-- Appending a string that starts with an ASCII byte appends its iterations:
no rune of the first part can extend into the second. -/
theorem rangeAux_append (fuel : Nat) (b : GoString) (hb : asciiHead b) (n : Nat) :
    ∀ (i : Nat) (a : GoString), a.length ≤ n → a.length + b.length ≤ fuel →
    rangeAux fuel i (a ++ b) = rangeAux fuel i a ++ rangeAux fuel (i + a.length) b := by
  induction n with
  | zero =>
    intro i a ha _
    have : a = [] := List.length_eq_zero.mp (by omega)
    subst this
    simp [rangeAux_nil]
  | succ n ih =>
    intro i a ha hf
    cases a with
    | nil => simp [rangeAux_nil]
    | cons c t =>
      have hw := decodeRune_width c t
      simp only [List.length_cons] at ha hf
      rw [List.cons_append, rangeAux_step fuel i c (t ++ b) (by simp; omega),
        rangeAux_step fuel i c t (by omega), ← List.cons_append, decodeRune_append c t b hb,
        List.drop_append_of_le_length (by simp; omega), List.cons_append]
      congr 1
      rw [ih _ _ (by simp; omega) (by simp; omega)]
      congr 2
      simp only [List.length_drop, List.length_cons]
      omega

theorem rangeString_append (a b : GoString) (hb : asciiHead b) :
    rangeString (a ++ b) = rangeString a ++ rangeAux b.length a.length b := by
  unfold rangeString
  rw [rangeAux_append (a ++ b).length b hb a.length 0 a (le_refl _) (by simp)]
  congr 1
  · apply rangeAux_fuel <;> simp
  · rw [Nat.zero_add]; apply rangeAux_fuel <;> simp

/-- The byte index of every iteration lies inside the string. -/
theorem rangeString_index (s : GoString) (k j r : Nat)
    (h : (rangeString s)[k]? = some (j, r)) : k ≤ j ∧ j < s.length := by
  have := rangeAux_index _ _ _ _ _ _ h
  omega

/-- The prefix that ends where the `k`-th rune starts has exactly `k` runes. -/
theorem rangeString_take (s : GoString) (k j r : Nat)
    (h : (rangeString s)[k]? = some (j, r)) :
    rangeString (s.take j) = (rangeString s).take k := by
  have h2 := rangeAux_take s.length 0 s k j r (le_refl _) h
  unfold rangeString
  rw [← h2, Nat.sub_zero]
  apply rangeAux_fuel <;> simp

theorem runeCount_take (s : GoString) (k j r : Nat)
    (h : (rangeString s)[k]? = some (j, r)) : runeCount (s.take j) = k := by
  unfold runeCount
  rw [rangeString_take s k j r h, List.length_take]
  have : k < (rangeString s).length := by
    rcases Nat.lt_or_ge k (rangeString s).length with h1 | h1
    · exact h1
    · rw [List.getElem?_eq_none h1] at h; cases h
  omega

theorem asciiHead_ellipsis : asciiHead (lit "...") := by
  intro c hc
  have : c = 0x2E := by
    have h : (lit "...").head? = some 0x2E := by decide
    rw [h] at hc
    simpa using hc.symm
  subst this
  decide

/-- Appending the ellipsis marker adds exactly three runes. -/
theorem runeCount_append_ellipsis (a : GoString) :
    runeCount (a ++ lit "...") = runeCount a + 3 := by
  unfold runeCount
  rw [rangeString_append a _ asciiHead_ellipsis, List.length_append]
  congr 1

/-! ## Facts about the loop of `truncate` -/

theorem truncateLoop_cons (text : GoString) (L : Int) (i r : Nat) (rest : List (Nat × Nat))
    (lsi len : Int) :
    truncateLoop text L ((i, r) :: rest) lsi len =
      if r = 0x0A then (slicePrefix text (i : Int)).map (fun p => p ++ lit "...")
      else if len + 1 > L then
        (slicePrefix text (if IsSpace r then (i : Int) else lsi)).map (fun p => p ++ lit "...")
      else truncateLoop text L rest (if IsSpace r then (i : Int) else lsi) (len + 1) := by
  simp [truncateLoop]

/-- Without a line break and without exceeding the limit, the loop runs to
its end and the text is returned as it is. -/
theorem truncateLoop_unchanged (text : GoString) (L : Int) :
    ∀ (rs : List (Nat × Nat)) (lsi len : Int),
    (∀ p ∈ rs, p.2 ≠ 0x0A) → len + rs.length ≤ L →
    truncateLoop text L rs lsi len = some text := by
  intro rs
  induction rs with
  | nil => intro lsi len _ _; simp [truncateLoop]
  | cons p rest ih =>
    intro lsi len hnl hlen
    obtain ⟨i, r⟩ := p
    have hr : r ≠ 0x0A := hnl (i, r) (by simp)
    simp only [List.length_cons, Nat.cast_add, Nat.cast_one] at hlen
    rw [truncateLoop_cons, if_neg hr, if_neg (by omega)]
    exact ih _ _ (fun p hp => hnl p (by simp [hp])) (by omega)

/-- A line break met before the limit is exceeded ends the loop with the
slice up to it. -/
theorem truncateLoop_newline (text : GoString) (L : Int) (i : Nat) (rs2 : List (Nat × Nat)) :
    ∀ (rs1 : List (Nat × Nat)) (lsi len : Int),
    (∀ p ∈ rs1, p.2 ≠ 0x0A) → len + rs1.length ≤ L →
    truncateLoop text L (rs1 ++ (i, 0x0A) :: rs2) lsi len =
      (slicePrefix text (i : Int)).map (fun p => p ++ lit "...") := by
  intro rs1
  induction rs1 with
  | nil => intro lsi len _ _; simp [truncateLoop]
  | cons p rest ih =>
    intro lsi len hnl hlen
    obtain ⟨j, r⟩ := p
    have hr : r ≠ 0x0A := hnl (j, r) (by simp)
    simp only [List.length_cons, Nat.cast_add, Nat.cast_one] at hlen
    rw [List.cons_append, truncateLoop_cons, if_neg hr, if_neg (by omega)]
    exact ih _ _ (fun p hp => hnl p (by simp [hp])) (by omega)

/-- When the first iterations `front` contain no line break and the last of
them is the one at which `length` exceeds the limit, the loop ends there with
the slice up to the value `lastSpaceIx` has after `front`. -/
theorem truncateLoop_overflow (text : GoString) (L : Int) (rs2 : List (Nat × Nat)) :
    ∀ (front : List (Nat × Nat)) (lsi len : Int), front ≠ [] →
    (∀ p ∈ front, p.2 ≠ 0x0A) → len + front.length = L + 1 →
    truncateLoop text L (front ++ rs2) lsi len =
      (slicePrefix text (lastSpace lsi front)).map (fun p => p ++ lit "...") := by
  intro front
  induction front with
  | nil => intro lsi len h; exact absurd rfl h
  | cons p rest ih =>
    intro lsi len _ hnl hlen
    obtain ⟨j, q⟩ := p
    have hq : q ≠ 0x0A := hnl (j, q) (by simp)
    simp only [List.length_cons, Nat.cast_add, Nat.cast_one] at hlen
    rw [List.cons_append, truncateLoop_cons, if_neg hq]
    cases rest with
    | nil =>
      simp only [List.length_nil, Nat.cast_zero] at hlen
      rw [if_pos (by omega)]
      simp [lastSpace]
    | cons p2 rest2 =>
      simp only [List.length_cons, Nat.cast_add, Nat.cast_one] at hlen
      rw [if_neg (by omega)]
      rw [ih _ _ (by simp) (fun p hp => hnl p (List.mem_cons_of_mem _ hp))
        (by simp only [List.length_cons, Nat.cast_add, Nat.cast_one]; omega)]
      simp [lastSpace]

theorem lastSpace_append (init : Int) (a b : List (Nat × Nat)) :
    lastSpace init (a ++ b) = lastSpace (lastSpace init a) b := by
  simp [lastSpace]

/-- Iterations without whitespace leave `lastSpaceIx` as it was. -/
theorem lastSpace_none (init : Int) (rs : List (Nat × Nat))
    (h : ∀ p ∈ rs, IsSpace p.2 = false) : lastSpace init rs = init := by
  induction rs generalizing init with
  | nil => rfl
  | cons p rest ih =>
    have hp : IsSpace p.2 = false := h p (by simp)
    have := ih init (fun q hq => h q (List.mem_cons_of_mem _ hq))
    simpa [lastSpace, hp] using this

/-- After a whitespace rune at byte index `i` followed by iterations without
whitespace, `lastSpaceIx` is `i`. -/
theorem lastSpace_last (init : Int) (a b : List (Nat × Nat)) (i r : Nat)
    (hr : IsSpace r = true) (hb : ∀ p ∈ b, IsSpace p.2 = false) :
    lastSpace init (a ++ (i, r) :: b) = (i : Int) := by
  rw [lastSpace_append]
  have : lastSpace (lastSpace init a) ((i, r) :: b) = lastSpace (i : Int) b := by
    simp [lastSpace, hr]
  rw [this, lastSpace_none _ _ hb]

/-- The three ways the loop can end: unchanged text, a cut at the start of one
of the runes visited up to the limit, or a cut at the initial `lastSpaceIx`. -/
theorem truncateLoop_cases (text : GoString) (L : Int) :
    ∀ (rs : List (Nat × Nat)) (lsi len : Int), len ≤ L →
    (truncateLoop text L rs lsi len = some text ∧ len + rs.length ≤ L) ∨
    (∃ k i r : Nat, rs[k]? = some (i, r) ∧ len + (k : Int) ≤ L ∧
      truncateLoop text L rs lsi len =
        (slicePrefix text (i : Int)).map (fun p => p ++ lit "...")) ∨
    (L < len + rs.length ∧
      truncateLoop text L rs lsi len = (slicePrefix text lsi).map (fun p => p ++ lit "...")) := by
  intro rs
  induction rs with
  | nil => intro lsi len h; left; simp [truncateLoop, h]
  | cons p rest ih =>
    intro lsi len h
    obtain ⟨i, r⟩ := p
    rw [truncateLoop_cons]
    simp only [List.length_cons, Nat.cast_add, Nat.cast_one]
    by_cases hr : r = 0x0A
    · right; left
      exact ⟨0, i, r, by simp, by simpa using h, by rw [if_pos hr]⟩
    · rw [if_neg hr]
      by_cases hov : len + 1 > L
      · rw [if_pos hov]
        by_cases hs : IsSpace r = true
        · right; left
          exact ⟨0, i, r, by simp, by simpa using h, by rw [if_pos hs]⟩
        · right; right
          refine ⟨?_, by rw [if_neg hs]⟩
          omega
      · rw [if_neg hov]
        rcases ih (if IsSpace r then (i : Int) else lsi) (len + 1) (by omega) with h1 | h2 | h3
        · left; exact ⟨h1.1, by omega⟩
        · right; left
          obtain ⟨k, j, q, hk, hle, heq⟩ := h2
          exact ⟨k + 1, j, q, by simpa using hk, by push_cast; omega, heq⟩
        · by_cases hs : IsSpace r = true
          · right; left
            refine ⟨0, i, r, by simp, by simpa using h, ?_⟩
            rw [h3.2, if_pos hs]
          · right; right
            refine ⟨by omega, ?_⟩
            rw [h3.2, if_neg hs]

theorem slicePrefix_of_le (text : GoString) (k : Nat) (h : k ≤ text.length) :
    slicePrefix text (k : Int) = some (text.take k) := by
  simp [slicePrefix, h]

/-- The outcomes of `truncate` for a limit that is not negative. -/
theorem truncate_cases (text : GoString) (L : Nat) :
    (truncate text L = some text ∧ runeCount text ≤ L) ∨
    (∃ k i r : Nat, (rangeString text)[k]? = some (i, r) ∧ k ≤ L ∧
      truncate text L = some (text.take i ++ lit "...")) ∨
    (L < runeCount text ∧ truncate text L = some (text.take L ++ lit "...")) := by
  rcases truncateLoop_cases text L (rangeString text) L 0 (by omega) with h1 | h2 | h3
  · left
    refine ⟨h1.1, ?_⟩
    have := h1.2
    unfold runeCount
    omega
  · right; left
    obtain ⟨k, i, r, hk, hle, heq⟩ := h2
    have hi := rangeString_index text k i r hk
    refine ⟨k, i, r, hk, by omega, ?_⟩
    unfold truncate
    rw [heq, slicePrefix_of_le text i (by omega)]
    rfl
  · right; right
    have hlt : L < runeCount text := by
      have := h3.1
      unfold runeCount
      omega
    refine ⟨hlt, ?_⟩
    have := runeCount_le_length text
    unfold truncate
    rw [h3.2, slicePrefix_of_le text L (by omega)]
    rfl

/-- For a limit that is not negative `truncate` never panics. -/
theorem truncate_isSome (text : GoString) (L : Nat) : ∃ out, truncate text L = some out := by
  rcases truncate_cases text L with h | ⟨_, _, _, _, _, h⟩ | h
  · exact ⟨_, h.1⟩
  · exact ⟨_, h⟩
  · exact ⟨_, h.2⟩

/-! ## Truncating a prefix: what a cut inside a character leaves behind -/

theorem acceptHi_le (s0 : Nat) : acceptHi s0 ≤ 0xBF := by
  unfold acceptHi; split_ifs <;> omega

/-- A continuation byte (`0x80..0xBF`) at the start of a string is ill-formed. -/
theorem decodeRune_cont (c : UInt8) (t : GoString) (h : 0x80 ≤ c.toNat ∧ c.toNat ≤ 0xBF) :
    decodeRune (c :: t) = (RuneError, 1) := by
  have h1 : ¬ c.toNat < 0x80 := by omega
  have h2 : c.toNat < 0xC2 ∨ 0xF4 < c.toNat := by omega
  simp only [decodeRune, if_neg h1, if_pos h2]

/-- A string made of continuation bytes only decodes to `RuneError`s. -/
theorem rangeAux_allCont (fuel : Nat) : ∀ (i : Nat) (s : GoString),
    (∀ b ∈ s, 0x80 ≤ b.toNat ∧ b.toNat ≤ 0xBF) → ∀ p ∈ rangeAux fuel i s, p.2 = RuneError := by
  induction fuel with
  | zero => intro i s _ p hp; simp [rangeAux] at hp
  | succ fuel ih =>
    intro i s hs p hp
    cases s with
    | nil => simp [rangeAux] at hp
    | cons c t =>
      rw [rangeAux_cons, decodeRune_cont c t (hs c (by simp))] at hp
      simp only [List.mem_cons] at hp
      rcases hp with rfl | hp
      · rfl
      · exact ih _ _ (fun b hb => hs b (by simpa using Or.inr hb)) p (by simpa using hp)

theorem decode2_short (s0 : Nat) (t : GoString) (m : Nat) (h : m + 1 < (decode2 s0 t).2) :
    decode2 s0 (t.take m) = (RuneError, 1) ∧
      ∀ b ∈ t.take m, 0x80 ≤ b.toNat ∧ b.toNat ≤ 0xBF := by
  rcases t with _ | ⟨c1, t⟩
  · simp [decode2] at h
  · simp only [decode2] at h
    split_ifs at h
    · simp at h
    · have : m = 0 := by simp at h; omega
      subst this
      simp [decode2]

theorem decode3_short (s0 : Nat) (t : GoString) (m : Nat) (h : m + 1 < (decode3 s0 t).2) :
    decode3 s0 (t.take m) = (RuneError, 1) ∧
      ∀ b ∈ t.take m, 0x80 ≤ b.toNat ∧ b.toNat ≤ 0xBF := by
  have hlo := acceptLo_ge s0
  have hhi := acceptHi_le s0
  rcases t with _ | ⟨c1, _ | ⟨c2, t⟩⟩
  · simp [decode3] at h
  · simp [decode3] at h
  · simp only [decode3] at h
    split_ifs at h with h1 h2
    · simp at h
    · simp at h
    · simp only at h
      rcases m with _ | _ | m
      · simp [decode3]
      · refine ⟨by simp [decode3], ?_⟩
        intro b hb
        simp only [List.take_succ_cons, List.take_zero, List.mem_singleton] at hb
        subst hb
        omega
      · omega

theorem decode4_short (s0 : Nat) (t : GoString) (m : Nat) (h : m + 1 < (decode4 s0 t).2) :
    decode4 s0 (t.take m) = (RuneError, 1) ∧
      ∀ b ∈ t.take m, 0x80 ≤ b.toNat ∧ b.toNat ≤ 0xBF := by
  have hlo := acceptLo_ge s0
  have hhi := acceptHi_le s0
  rcases t with _ | ⟨c1, _ | ⟨c2, _ | ⟨c3, t⟩⟩⟩
  · simp [decode4] at h
  · simp [decode4] at h
  · simp [decode4] at h
  · simp only [decode4] at h
    split_ifs at h with h1 h2 h3
    · simp at h
    · simp at h
    · simp at h
    · simp only at h
      rcases m with _ | _ | _ | m
      · simp [decode4]
      · refine ⟨by simp [decode4], ?_⟩
        intro b hb
        simp only [List.take_succ_cons, List.take_zero, List.mem_singleton] at hb
        subst hb
        omega
      · refine ⟨by simp [decode4], ?_⟩
        intro b hb
        simp only [List.take_succ_cons, List.take_zero, List.mem_cons, List.mem_singleton,
          List.not_mem_nil, or_false] at hb
        rcases hb with rfl | rfl <;> omega
      · omega

/-- A prefix that ends inside the first character: its lead byte decodes to
`RuneError` with width 1 and the bytes kept after it are continuation bytes. -/
theorem decodeRune_short (c : UInt8) (t : GoString) (m : Nat)
    (h : m + 1 < (decodeRune (c :: t)).2) :
    decodeRune (c :: t.take m) = (RuneError, 1) ∧
      ∀ b ∈ t.take m, 0x80 ≤ b.toNat ∧ b.toNat ≤ 0xBF := by
  simp only [decodeRune] at h ⊢
  split_ifs at h ⊢
  · simp at h
  · simp at h
  · exact decode2_short _ _ _ h
  · exact decode3_short _ _ _ h
  · exact decode4_short _ _ _ h

/-- The runes of a byte prefix are runes of the whole string, except for
`RuneError`s where the cut fell inside a character. -/
theorem rangeAux_take_mem (fuel : Nat) (n : Nat) : ∀ (i m : Nat) (s : GoString),
    s.length ≤ n → s.length ≤ fuel →
    ∀ p ∈ rangeAux fuel i (s.take m), p.2 = RuneError ∨ p ∈ rangeAux fuel i s := by
  induction n with
  | zero =>
    intro i m s hn _ p hp
    have : s = [] := List.length_eq_zero.mp (by omega)
    subst this
    simp [rangeAux_nil] at hp
  | succ n ih =>
    intro i m s hn hf p hp
    cases s with
    | nil => simp [rangeAux_nil] at hp
    | cons c t =>
      cases m with
      | zero => simp [rangeAux_nil] at hp
      | succ m =>
        have hw := decodeRune_width c t
        simp only [List.length_cons] at hn hf
        rw [List.take_succ_cons] at hp
        have hlen : (t.take m).length + 1 ≤ fuel := by
          simp only [List.length_take]; omega
        rw [rangeAux_step fuel i c _ hlen] at hp
        rcases Nat.lt_or_ge (m + 1) (decodeRune (c :: t)).2 with hlt | hge
        · left
          obtain ⟨hd, hcont⟩ := decodeRune_short c t m hlt
          rw [hd] at hp
          simp only [List.mem_cons] at hp
          rcases hp with rfl | hp
          · rfl
          · exact rangeAux_allCont _ _ _ (by simpa using hcont) p (by simpa using hp)
        · rw [decodeRune_take c t m hge] at hp
          rw [rangeAux_step fuel i c t (by omega)]
          simp only [List.mem_cons] at hp ⊢
          rcases hp with rfl | hp
          · right; left; rfl
          · have hdrop : (c :: t.take m).drop (decodeRune (c :: t)).2
                = ((c :: t).drop (decodeRune (c :: t)).2).take (m + 1 - (decodeRune (c :: t)).2) := by
              rw [← List.take_succ_cons, List.drop_take]
            rw [hdrop] at hp
            rcases ih _ _ _ (by simp only [List.length_drop, List.length_cons]; omega)
              (by simp only [List.length_drop, List.length_cons]; omega) p hp with h1 | h2
            · left; exact h1
            · right; right; exact h2

theorem IsSpace_RuneError : IsSpace RuneError = false := by decide

/-- A byte prefix of a text without whitespace has no whitespace rune. -/
theorem rangeString_take_noSpace (s : GoString) (m : Nat)
    (h : ∀ p ∈ rangeString s, IsSpace p.2 = false) :
    ∀ p ∈ rangeString (s.take m), IsSpace p.2 = false := by
  intro p hp
  unfold rangeString at hp
  rw [rangeAux_fuel _ s.length 0 _ (le_refl _) (by simp)] at hp
  rcases rangeAux_take_mem s.length s.length 0 m s (le_refl _) (le_refl _) p hp with h1 | h2
  · rw [h1]; exact IsSpace_RuneError
  · exact h p h2
theorem getElem_append_cons {α : Type} (a b : List α) (x : α) :
    (a ++ x :: b)[a.length]? = some x := by
  rw [List.getElem?_append_right (le_refl _)]
  simp

/-! ## Claims about `truncate` -/

/-- C4: for every text and every positive limit `truncate` returns a text (it
does not panic) that has at most `limit + 3` logical characters, 3 being the
length of the ellipsis marker "...". -/
theorem truncate_runeCount_le (text : GoString) (limit : Int) (hpos : 0 < limit) :
    ∃ out, truncate text limit = some out ∧ (runeCount out : Int) ≤ limit + 3 := by
  obtain ⟨L, rfl⟩ : ∃ L : Nat, limit = (L : Int) := ⟨limit.toNat, by omega⟩
  rcases truncate_cases text L with h | ⟨k, i, r, hk, hle, h⟩ | h
  · exact ⟨text, h.1, by omega⟩
  · refine ⟨_, h, ?_⟩
    rw [runeCount_append_ellipsis, runeCount_take text k i r hk]
    omega
  · refine ⟨_, h.2, ?_⟩
    rw [runeCount_append_ellipsis]
    have h1 := runeCount_le_length (text.take L)
    have h2 : (text.take L).length ≤ L := by simp
    omega

/-- Witness of C4: the text "hello wonderful world" (21 characters) with
limit 8. -/
theorem truncate_runeCount_le_witness :
    (0 : Int) < 8 ∧
      ∃ out, truncate (lit "hello wonderful world") 8 = some out ∧ (runeCount out : Int) ≤ 8 + 3 :=
  ⟨by decide, truncate_runeCount_le (lit "hello wonderful world") 8 (by decide)⟩

/-- C5, as stated, fails: "a\nb" has 3 logical characters, at most the limit
5, and `truncate` returns "a..." instead of the text. -/
theorem truncate_short_counterexample :
    (0 : Int) < 5 ∧ (runeCount (lit "a\nb") : Int) ≤ 5 ∧
      truncate (lit "a\nb") 5 = some (lit "a...") ∧
      truncate (lit "a\nb") 5 ≠ some (lit "a\nb") := by
  decide

/-- C5, amended: for every positive limit, a text that has at most `limit`
logical characters and contains no line break is returned verbatim. -/
theorem truncate_short (text : GoString) (limit : Int) (_hpos : 0 < limit)
    (hlen : (runeCount text : Int) ≤ limit) (hnl : ∀ p ∈ rangeString text, p.2 ≠ 0x0A) :
    truncate text limit = some text :=
  truncateLoop_unchanged text limit (rangeString text) limit 0 hnl (by unfold runeCount at hlen; omega)

/-- Witness of C5 amended: "fix typo" with limit 32. -/
theorem truncate_short_witness : truncate (lit "fix typo") 32 = some (lit "fix typo") :=
  truncate_short (lit "fix typo") 32 (by decide) (by decide) (by decide)

/-- C6: when the iterations of `range` over the text are `pre`, then a line
break at byte index `i`, then `post`, where `pre` holds no line break and fewer
than `limit` logical characters, `truncate` returns the bytes before the line
break followed by "...", whatever `pre` and `post` contain. -/
theorem truncate_line_break (text : GoString) (limit : Int) (pre post : List (Nat × Nat))
    (i : Nat) (hsplit : rangeString text = pre ++ (i, 0x0A) :: post)
    (hpre : ∀ p ∈ pre, p.2 ≠ 0x0A) (hlim : (pre.length : Int) < limit) :
    truncate text limit = some (text.take i ++ lit "...") := by
  have hidx : (rangeString text)[pre.length]? = some (i, 0x0A) := by
    rw [hsplit]; exact getElem_append_cons _ _ _
  have hi := rangeString_index text _ _ _ hidx
  unfold truncate
  rw [hsplit, truncateLoop_newline text limit i post pre limit 0 hpre (by omega),
    slicePrefix_of_le text i (by omega)]
  rfl

/-- Witness of C6: "fix bug \nmore details" with limit 32; the line break is
the 9th character, after a space. -/
theorem truncate_line_break_witness :
    truncate (lit "fix bug \nmore details") 32 = some (lit "fix bug " ++ lit "...") :=
  truncate_line_break (lit "fix bug \nmore details") 32
    ((rangeString (lit "fix bug \nmore details")).take 8)
    ((rangeString (lit "fix bug \nmore details")).drop 9) 8 (by decide) (by decide) (by decide)

/-- C7, as stated, fails: with limit 3, "a b c" is truncated to "a b...", and
truncating that again gives "a...". -/
theorem truncate_idempotent_counterexample :
    (0 : Int) < 3 ∧ truncate (lit "a b c") 3 = some (lit "a b...") ∧
      truncate (lit "a b...") 3 = some (lit "a...") ∧ lit "a..." ≠ lit "a b..." := by
  decide

/-- C8: when the text has more than `limit` logical characters, its first
`limit + 1` iterations hold no line break and are `a`, then a whitespace rune
at byte index `i`, then `b` without whitespace (so that rune is the last
whitespace among them), `truncate` returns the bytes strictly before that
whitespace character followed by "...". -/
theorem truncate_last_space (text : GoString) (limit : Nat) (a b : List (Nat × Nat))
    (i r : Nat) (hmore : limit < runeCount text)
    (hsplit : (rangeString text).take (limit + 1) = a ++ (i, r) :: b)
    (hnl : ∀ p ∈ (rangeString text).take (limit + 1), p.2 ≠ 0x0A)
    (hsp : IsSpace r = true) (hlast : ∀ p ∈ b, IsSpace p.2 = false) :
    truncate text (limit : Int) = some (text.take i ++ lit "...") := by
  have hidx : (rangeString text)[a.length]? = some (i, r) := by
    have h1 : ((rangeString text).take (limit + 1))[a.length]? = some (i, r) := by
      rw [hsplit]; exact getElem_append_cons _ _ _
    rw [List.getElem?_take] at h1
    split_ifs at h1
    exact h1
  have hi := rangeString_index text _ _ _ hidx
  have hlen : ((rangeString text).take (limit + 1)).length = limit + 1 := by
    rw [List.length_take]; unfold runeCount at hmore; omega
  unfold truncate
  rw [← List.take_append_drop (limit + 1) (rangeString text),
    truncateLoop_overflow text limit _ _ limit 0 (by intro h; rw [h] at hlen; simp at hlen) hnl
      (by rw [hlen]; push_cast; omega),
    hsplit, lastSpace_last _ a b i r hsp hlast, slicePrefix_of_le text i (by omega)]
  rfl

/-- Witness of C8: "hello wonderful world" with limit 8: the first 9
characters are "hello won", the last whitespace among them is at index 5. -/
theorem truncate_last_space_witness :
    truncate (lit "hello wonderful world") ((8 : Nat) : Int) = some (lit "hello" ++ lit "...") :=
  truncate_last_space (lit "hello wonderful world") 8
    ((rangeString (lit "hello wonderful world")).take 5)
    (((rangeString (lit "hello wonderful world")).take 9).drop 6) 5 0x20
    (by decide) (by decide) (by decide) (by decide) (by decide)
theorem noSpace_noLineBreak (rs : List (Nat × Nat)) (h : ∀ p ∈ rs, IsSpace p.2 = false) :
    ∀ p ∈ rs, p.2 ≠ 0x0A := by
  intro p hp h10
  have := h p hp
  rw [h10] at this
  exact absurd this (by decide)

/-- On a text without whitespace `truncate` returns the text when it has at
most `L` logical characters and otherwise its first `L` bytes followed by
"...": the cut is at the initial value of `lastSpaceIx`, a byte index. -/
theorem truncate_noSpace (s : GoString) (L : Nat)
    (h : ∀ p ∈ rangeString s, IsSpace p.2 = false) :
    truncate s (L : Int) = some (if runeCount s ≤ L then s else s.take L ++ lit "...") := by
  have hnl := noSpace_noLineBreak _ h
  by_cases hle : runeCount s ≤ L
  · rw [if_pos hle]
    exact truncateLoop_unchanged s L (rangeString s) L 0 hnl (by unfold runeCount at hle; omega)
  · rw [if_neg hle]
    have hlen : ((rangeString s).take (L + 1)).length = L + 1 := by
      rw [List.length_take]; unfold runeCount at hle; omega
    have hsub : ∀ p ∈ (rangeString s).take (L + 1), p ∈ rangeString s :=
      fun p hp => List.mem_of_mem_take hp
    have hbytes := runeCount_le_length s
    unfold truncate
    rw [← List.take_append_drop (L + 1) (rangeString s),
      truncateLoop_overflow s L _ _ L 0 (by intro h0; rw [h0] at hlen; simp at hlen)
        (fun p hp => hnl p (hsub p hp)) (by rw [hlen]; push_cast; omega),
      lastSpace_none _ _ (fun p hp => h p (hsub p hp)), slicePrefix_of_le s L (by omega)]
    rfl

theorem rangeAux_ellipsis (i : Nat) :
    rangeAux (lit "...").length i (lit "...") = [(i, 0x2E), (i + 1, 0x2E), (i + 1 + 1, 0x2E)] := by
  have h : lit "..." = [0x2E, 0x2E, 0x2E] := by decide
  rw [h]
  have hd : ∀ t : GoString, decodeRune ((0x2E : UInt8) :: t) = (0x2E, 1) := by
    intro t
    have h1 : (0x2E : UInt8).toNat < 0x80 := by decide
    simp only [decodeRune, if_pos h1]
    rfl
  simp [rangeAux, hd]

/-- Appending "..." to a text without whitespace gives a text without
whitespace. -/
theorem rangeString_ellipsis_noSpace (a : GoString)
    (h : ∀ p ∈ rangeString a, IsSpace p.2 = false) :
    ∀ p ∈ rangeString (a ++ lit "..."), IsSpace p.2 = false := by
  intro p hp
  rw [rangeString_append a _ asciiHead_ellipsis, rangeAux_ellipsis, List.mem_append] at hp
  rcases hp with hp | hp
  · exact h p hp
  · simp only [List.mem_cons, List.mem_singleton, List.not_mem_nil, or_false] at hp
    rcases hp with rfl | rfl | rfl <;> exact (by decide : IsSpace 0x2E = false)

/-- C7, amended: for every positive limit and every text that contains no
whitespace character (hence no line break), `truncate` returns a text that
truncating again with the same limit leaves unchanged. -/
theorem truncate_idempotent_noSpace (text : GoString) (limit : Int) (hpos : 0 < limit)
    (hns : ∀ p ∈ rangeString text, IsSpace p.2 = false) :
    ∃ out, truncate text limit = some out ∧ truncate out limit = some out := by
  obtain ⟨L, rfl⟩ : ∃ L : Nat, limit = (L : Int) := ⟨limit.toNat, by omega⟩
  by_cases hle : runeCount text ≤ L
  · have h1 := truncate_noSpace text L hns
    rw [if_pos hle] at h1
    exact ⟨text, h1, h1⟩
  · have h1 := truncate_noSpace text L hns
    rw [if_neg hle] at h1
    refine ⟨_, h1, ?_⟩
    have hns2 := rangeString_ellipsis_noSpace _ (rangeString_take_noSpace text L hns)
    rw [truncate_noSpace _ L hns2]
    congr 1
    split_ifs with h2
    · rfl
    · have hbytes := runeCount_le_length text
      have hlen : (text.take L).length = L := by rw [List.length_take]; omega
      rw [List.take_append_of_le_length (by omega), List.take_of_length_le (by omega)]

/-- Witness of C7 amended: "supercalifragilistic" with limit 8. -/
theorem truncate_idempotent_noSpace_witness :
    ∃ out, truncate (lit "supercalifragilistic") 8 = some out ∧ truncate out 8 = some out :=
  truncate_idempotent_noSpace (lit "supercalifragilistic") 8 (by decide) (by decide)

/-- C9 on the code: the text "ééé" has 3 logical characters, more than the
limit 2, and neither whitespace nor line break; `truncate` returns "é...", the
first 2 bytes (one character) and the marker, not the first 2 characters
"éé".  With the limit 32 of the callers, a title of 33 "é" is cut to 16 of
them.  With limit 1 and "éé" the cut falls inside the first character: the
result is the single byte `0xC3` and the marker. -/
theorem truncate_multibyte_cut :
    runeCount (lit "ééé") = 3 ∧
      (∀ p ∈ rangeString (lit "ééé"), IsSpace p.2 = false) ∧
      truncate (lit "ééé") 2 = some (lit "é...") ∧
      truncate (lit "ééé") 2 ≠ some (lit "éé...") ∧
      truncate (lit "ééééééééééééééééééééééééééééééééé") TRUNC_LEN
        = some (lit "éééééééééééééééé...") ∧
      truncate (lit "éé") 1 = some ((0xC3 : UInt8) :: lit "...") := by
  decide

/-! ## Facts about `Run` -/

theorem bind_eq {α β : Type} (x : Run α) (f : α → Run β) : x >>= f = Run.bind x f := rfl

theorem pure_eq {α : Type} (a : α) : (pure a : Run α) = ⟨[], some a⟩ := rfl

theorem Run.eq_mk {α : Type} (x : Run α) : x = ⟨x.out, x.res⟩ := rfl

/-- The limits 32 and 8 are not negative, so the calls of `truncate` made by
the printers and `String` methods return a text. -/
theorem truncate_TRUNC_LEN (text : GoString) : ∃ out, truncate text TRUNC_LEN = some out :=
  truncate_isSome text 32

theorem truncate_8 (text : GoString) : ∃ out, truncate text 8 = some out :=
  truncate_isSome text 8

theorem PullRequest_String_isSome (pr : PullRequest) : ∃ out, PullRequest.String pr = some out := by
  obtain ⟨t, ht⟩ := truncate_TRUNC_LEN pr.Title
  simp [PullRequest.String, ht]

theorem Issue_String_isSome (i : Issue) : ∃ out, Issue.String i = some out := by
  obtain ⟨t, ht⟩ := truncate_TRUNC_LEN i.Title
  simp [Issue.String, ht]

theorem Commit_String_isSome (c : Commit) : ∃ out, Commit.String c = some out := by
  obtain ⟨t, ht⟩ := truncate_TRUNC_LEN c.Message
  obtain ⟨u, hu⟩ := truncate_8 c.SHA
  simp [Commit.String, ht, hu]

theorem gollumLoop_ok (n : Nat) (pages : List Page) :
    ∀ idx, (gollumLoop n idx pages).res = some () := by
  induction pages with
  | nil => intro idx; rfl
  | cons p rest ih =>
    intro idx
    simp only [gollumLoop, bind_eq]
    split_ifs <;> simp [print, println, Run.bind, ih]

theorem pushLoop_ok (n : Nat) (commits : List Commit) :
    ∀ idx, (pushLoop n idx commits).res = some () := by
  induction commits with
  | nil => intro idx; rfl
  | cons c rest ih =>
    intro idx
    obtain ⟨s, hs⟩ := Commit_String_isSome c
    simp only [pushLoop, bind_eq]
    split_ifs <;> simp [print, println, Run.bind, ih, hs, eval]

theorem printCommitComment_ok (e : Event) : (printCommitComment e).res = some () := by
  obtain ⟨t, ht⟩ := truncate_TRUNC_LEN e.Payload.Comment.Body
  simp [printCommitComment, bind_eq, Run.bind, print, eval, ht]

theorem printCreate_ok (e : Event) : (printCreate e).res = some () := by
  simp only [printCreate, bind_eq]
  split_ifs <;> simp [Run.bind, print, pure_eq]

theorem printGollum_ok (e : Event) : (printGollum e).res = some () := by
  simp only [printGollum, bind_eq]
  split_ifs <;> simp [Run.bind, print, gollumLoop_ok]

theorem printIssueComment_ok (e : Event) : (printIssueComment e).res = some () := by
  obtain ⟨t, ht⟩ := truncate_TRUNC_LEN e.Payload.Comment.Body
  obtain ⟨i, hi⟩ := Issue_String_isSome e.Payload.Issue
  simp [printIssueComment, bind_eq, Run.bind, print, eval, ht, hi]

theorem printIssues_ok (e : Event) : (printIssues e).res = some () := by
  obtain ⟨i, hi⟩ := Issue_String_isSome e.Payload.Issue
  simp only [printIssues, bind_eq]
  split_ifs <;> simp [Run.bind, print, eval, hi, pure_eq]

theorem printMember_ok (e : Event) : (printMember e).res = some () := by
  simp only [printMember]
  split_ifs <;> simp [print]

theorem printPullRequest_ok (e : Event) : (printPullRequest e).res = some () := by
  obtain ⟨t, ht⟩ := truncate_TRUNC_LEN e.Payload.Reason
  obtain ⟨i, hi⟩ := PullRequest_String_isSome e.Payload.PullRequest
  simp only [printPullRequest, bind_eq]
  split_ifs <;> simp [Run.bind, print, eval, hi, ht, pure_eq]

theorem printPullRequestReview_ok (e : Event) : (printPullRequestReview e).res = some () := by
  obtain ⟨i, hi⟩ := PullRequest_String_isSome e.Payload.PullRequest
  simp [printPullRequestReview, bind_eq, Run.bind, print, eval, hi]

theorem printPullRequestReviewComment_ok (e : Event) :
    (printPullRequestReviewComment e).res = some () := by
  obtain ⟨t, ht⟩ := truncate_TRUNC_LEN e.Payload.Comment.Body
  obtain ⟨i, hi⟩ := PullRequest_String_isSome e.Payload.PullRequest
  simp [printPullRequestReviewComment, bind_eq, Run.bind, print, eval, hi, ht]

theorem printPullRequestReviewThread_ok (e : Event) :
    (printPullRequestReviewThread e).res = some () := by
  obtain ⟨i, hi⟩ := PullRequest_String_isSome e.Payload.PullRequest
  simp [printPullRequestReviewThread, bind_eq, Run.bind, print, eval, hi]

theorem printPush_ok (e : Event) : (printPush e).res = some () := by
  simp only [printPush, bind_eq]
  split_ifs <;> simp [Run.bind, print, pushLoop_ok]

theorem printRelease_ok (e : Event) : (printRelease e).res = some () := by
  obtain ⟨t, ht⟩ := truncate_TRUNC_LEN e.Payload.Release.Title
  simp [printRelease, bind_eq, Run.bind, print, eval, ht]

/-! ## The dispatch table -/

/-- Every known tag is a key of `eventPrinters`, and the call of the printer
found there does not panic. -/
theorem callPrinter_known (t : EventType) (e : Event) (h : t ∈ knownTags) :
    (∃ printer, eventPrinters.lookup t = some printer ∧ callPrinter t e = printer e) ∧
      (callPrinter t e).res = some () := by
  simp only [knownTags, List.mem_cons, List.mem_singleton, List.not_mem_nil, or_false] at h
  rcases h with rfl | rfl | rfl | rfl | rfl | rfl | rfl | rfl | rfl | rfl | rfl | rfl | rfl | rfl
    | rfl | rfl | rfl
  · exact ⟨⟨printCommitComment, rfl, rfl⟩, printCommitComment_ok e⟩
  · exact ⟨⟨printCreate, rfl, rfl⟩, printCreate_ok e⟩
  · exact ⟨⟨printDelete, rfl, rfl⟩, rfl⟩
  · exact ⟨⟨printFork, rfl, rfl⟩, rfl⟩
  · exact ⟨⟨printGollum, rfl, rfl⟩, printGollum_ok e⟩
  · exact ⟨⟨printIssueComment, rfl, rfl⟩, printIssueComment_ok e⟩
  · exact ⟨⟨printIssues, rfl, rfl⟩, printIssues_ok e⟩
  · exact ⟨⟨printMember, rfl, rfl⟩, printMember_ok e⟩
  · exact ⟨⟨printPublic, rfl, rfl⟩, rfl⟩
  · exact ⟨⟨printPullRequest, rfl, rfl⟩, printPullRequest_ok e⟩
  · exact ⟨⟨printPullRequestReview, rfl, rfl⟩, printPullRequestReview_ok e⟩
  · exact ⟨⟨printPullRequestReviewComment, rfl, rfl⟩, printPullRequestReviewComment_ok e⟩
  · exact ⟨⟨printPullRequestReviewThread, rfl, rfl⟩, printPullRequestReviewThread_ok e⟩
  · exact ⟨⟨printPush, rfl, rfl⟩, printPush_ok e⟩
  · exact ⟨⟨printRelease, rfl, rfl⟩, printRelease_ok e⟩
  · exact ⟨⟨printSponsorship, rfl, rfl⟩, rfl⟩
  · exact ⟨⟨printWatch, rfl, rfl⟩, rfl⟩

/-- A tag that is not one of the 17 constants is not a key of `eventPrinters`. -/
theorem lookup_unknown (t : EventType) (h : t ∉ knownTags) : eventPrinters.lookup t = none := by
  simp only [knownTags, List.mem_cons, List.mem_singleton, List.not_mem_nil, or_false,
    not_or] at h
  obtain ⟨h1, h2, h3, h4, h5, h6, h7, h8, h9, h10, h11, h12, h13, h14, h15, h16, h17⟩ := h
  simp only [eventPrinters, List.lookup, beq_false_of_ne h1, beq_false_of_ne h2,
    beq_false_of_ne h3, beq_false_of_ne h4, beq_false_of_ne h5, beq_false_of_ne h6,
    beq_false_of_ne h7, beq_false_of_ne h8, beq_false_of_ne h9, beq_false_of_ne h10,
    beq_false_of_ne h11, beq_false_of_ne h12, beq_false_of_ne h13, beq_false_of_ne h14,
    beq_false_of_ne h15, beq_false_of_ne h16, beq_false_of_ne h17]

/-! ## The feed formatter -/

theorem callPrinter_known_eq (e : Event) (h : e.Typ ∈ knownTags) :
    callPrinter e.Typ e = ⟨render e, some ()⟩ := by
  have := (callPrinter_known e.Typ e h).2
  rw [Run.eq_mk (callPrinter e.Typ e), this]
  rfl

theorem callPrinter_unknown (t : EventType) (e : Event) (h : t ∉ knownTags) :
    callPrinter t e = ⟨[], none⟩ := by
  simp [callPrinter, lookup_unknown t h, panic]

/-- The loop of `parseUserData` on a non-empty list of events with known
tags, entered at the index that leaves exactly these events. -/
theorem parseLoop_known (n : Nat) : ∀ (rest : List Event) (e : Event) (idx : Nat),
    (∀ x ∈ e :: rest, x.Typ ∈ knownTags) → idx + rest.length + 1 = n →
    parseLoop n idx (e :: rest) =
      ⟨lit "• " ++ render e ++ rest.flatMap (fun x => lit ";\n\n" ++ lit "• " ++ render x)
        ++ lit ".\n", some ()⟩ := by
  intro rest
  induction rest with
  | nil =>
    intro e idx hk hn
    have hc := callPrinter_known_eq e (hk e (by simp))
    have hcond : (idx : Int) = (n : Int) - 1 := by simp at hn; omega
    simp [parseLoop, bind_eq, Run.bind, print, println, hc, hcond, pure_eq]
    decide
  | cons e2 rest ih =>
    intro e idx hk hn
    have hc := callPrinter_known_eq e (hk e (by simp))
    have hcond : ¬ (idx : Int) = (n : Int) - 1 := by simp at hn; omega
    have hrec := ih e2 (idx + 1) (fun x hx => hk x (List.mem_cons_of_mem _ hx))
      (by simp at hn ⊢; omega)
    rw [parseLoop]
    simp [bind_eq, Run.bind, print, println, hc, hcond, hrec]

/-- The loop of `parseUserData` on events with known tags followed by an event
with an unknown tag: it stops in a panic at that event, after its bullet. -/
theorem parseLoop_unknown (n : Nat) (e : Event) (post : List Event) (he : e.Typ ∉ knownTags) :
    ∀ (pre : List Event) (idx : Nat),
    (∀ x ∈ pre, x.Typ ∈ knownTags) → idx + pre.length + 1 + post.length = n →
    parseLoop n idx (pre ++ e :: post) =
      ⟨pre.flatMap (fun x => lit "• " ++ render x ++ lit ";\n\n") ++ lit "• ", none⟩ := by
  intro pre
  induction pre with
  | nil =>
    intro idx _ _
    have hc := callPrinter_unknown e.Typ e he
    simp [parseLoop, bind_eq, Run.bind, print, hc]
  | cons x pre ih =>
    intro idx hk hn
    have hc := callPrinter_known_eq x (hk x (by simp))
    have hcond : ¬ (idx : Int) = (n : Int) - 1 := by simp at hn; omega
    have hrec := ih (idx + 1) (fun y hy => hk y (List.mem_cons_of_mem _ hy))
      (by simp at hn ⊢; omega)
    rw [List.cons_append, parseLoop]
    simp [bind_eq, Run.bind, print, println, hc, hcond, hrec]

/-! ## Claims about the dispatch table and the feed formatter -/

/-- C1, as stated, fails: for "alice" and the feed [watch on "acme/widgets",
fork with target "acme/widgets-fork"] the output is not the text of the claim,
which ends with "."; the code writes that text and then a line break. -/
theorem parseUserData_witness_counterexample :
    (parseUserData (lit "alice") [sampleWatch, sampleFork]).out ≠
        lit "alice's GitHub activity:\n• starred repo 'acme/widgets';\n\n• forked the 'acme/widgets-fork' repo."
      ∧ (parseUserData (lit "alice") [sampleWatch, sampleFork]).out =
        lit "alice's GitHub activity:\n• starred repo 'acme/widgets';\n\n• forked the 'acme/widgets-fork' repo.\n" := by
  decide

/-- C1, amended: for every username `u` and every non-empty list of events
`e1, rest` whose tags are all known, `parseUserData` returns `nil` and its
complete output is `u`, "'s GitHub activity:\n", then "• " and the rendering of
`e1`, then for each further event ";\n\n", "• " and its rendering, in order, and
finally ".\n" (the full stop and the line break of `Println`). -/
theorem parseUserData_output (u : GoString) (e1 : Event) (rest : List Event)
    (hknown : ∀ x ∈ e1 :: rest, x.Typ ∈ knownTags) :
    parseUserData u (e1 :: rest) =
      ⟨u ++ lit "'s GitHub activity:\n" ++ lit "• " ++ render e1
        ++ rest.flatMap (fun x => lit ";\n\n" ++ lit "• " ++ render x) ++ lit ".\n", some none⟩ := by
  have h := parseLoop_known (e1 :: rest).length rest e1 0 hknown (by simp)
  simp only [parseUserData, bind_eq]
  rw [h]
  simp [Run.bind, print, pure_eq]

/-- Witness of C1 amended: the two-event feed of the specification. -/
theorem parseUserData_output_witness :
    parseUserData (lit "alice") [sampleWatch, sampleFork] =
      ⟨lit "alice" ++ lit "'s GitHub activity:\n" ++ lit "• " ++ render sampleWatch
        ++ [sampleFork].flatMap (fun x => lit ";\n\n" ++ lit "• " ++ render x) ++ lit ".\n",
        some none⟩ :=
  parseUserData_output (lit "alice") sampleWatch [sampleFork] (by decide)

/-- C2: for an event whose tag is one of the 17 known tags, whatever its
payload, the dispatch table holds a printer for the tag and calling it writes
a text and ends normally, without panic. -/
theorem render_known (e : Event) (h : e.Typ ∈ knownTags) :
    (∃ printer, eventPrinters.lookup e.Typ = some printer) ∧
      ∃ text, callPrinter e.Typ e = ⟨text, some ()⟩ := by
  obtain ⟨⟨printer, hp, _⟩, hres⟩ := callPrinter_known e.Typ e h
  refine ⟨⟨printer, hp⟩, (callPrinter e.Typ e).out, ?_⟩
  rw [Run.eq_mk (callPrinter e.Typ e), hres]

/-- Witness of C2: the sample `ForkEvent`. -/
theorem render_known_witness :
    sampleFork.Typ ∈ knownTags ∧
      (∃ printer, eventPrinters.lookup sampleFork.Typ = some printer) ∧
      ∃ text, callPrinter sampleFork.Typ sampleFork = ⟨text, some ()⟩ :=
  ⟨by decide, render_known sampleFork (by decide)⟩

/-- C3, as stated, fails: the tag "DiscussionEvent" is not in the table, and
formatting a feed that contains such an event neither returns an error nor
ends normally: it stops in a run-time panic (`res = none`), after the bullet
of that event was written. -/
theorem parseUserData_unknown_counterexample :
    sampleUnknown.Typ ∉ knownTags ∧
      callPrinter sampleUnknown.Typ sampleUnknown = ⟨[], none⟩ ∧
      parseUserData (lit "alice") [sampleWatch, sampleUnknown, sampleFork] =
        ⟨lit "alice's GitHub activity:\n• starred repo 'acme/widgets';\n\n• ", none⟩ := by
  decide

/-- C3, amended: for every event `e` whose tag is not one of the 17 known
tags, the dispatch table has no printer, calling the printer panics, and
formatting a feed `pre ++ e :: post` (the tags of `pre` known) stops in that
panic: no error value is returned, the event is not skipped, and the output
written so far is the header, the items of `pre` each followed by ";\n\n", and
the bullet "• " of `e`. -/
theorem parseUserData_unknown (u : GoString) (pre post : List Event) (e : Event)
    (hpre : ∀ x ∈ pre, x.Typ ∈ knownTags) (he : e.Typ ∉ knownTags) :
    eventPrinters.lookup e.Typ = none ∧ callPrinter e.Typ e = ⟨[], none⟩ ∧
      parseUserData u (pre ++ e :: post) =
        ⟨u ++ lit "'s GitHub activity:\n"
          ++ pre.flatMap (fun x => lit "• " ++ render x ++ lit ";\n\n") ++ lit "• ", none⟩ := by
  refine ⟨lookup_unknown _ he, callPrinter_unknown _ _ he, ?_⟩
  have h := parseLoop_unknown (pre ++ e :: post).length e post he pre 0 hpre (by simp; omega)
  simp only [parseUserData, bind_eq]
  rw [h]
  simp [Run.bind, print]

/-- Witness of C3 amended: a known event, then the unknown one, then another. -/
theorem parseUserData_unknown_witness :
    eventPrinters.lookup sampleUnknown.Typ = none ∧
      callPrinter sampleUnknown.Typ sampleUnknown = ⟨[], none⟩ ∧
      parseUserData (lit "alice") ([sampleWatch] ++ sampleUnknown :: [sampleFork]) =
        ⟨lit "alice" ++ lit "'s GitHub activity:\n"
          ++ [sampleWatch].flatMap (fun x => lit "• " ++ render x ++ lit ";\n\n") ++ lit "• ",
          none⟩ :=
  parseUserData_unknown (lit "alice") [sampleWatch] [sampleFork] sampleUnknown
    (by decide) (by decide)

/-! ## Claims about the printers -/

/-- C10: for a push event on repo `X`, the rendering starts with the line
"pushed 1 commit to repo 'X':" when the payload's `size` is "1", and with
"pushed n commits to repo 'X':" when `size` is any other value `n`; the line
break and the commit lines written by the loop follow. -/
theorem render_push_header (e : Event) (h : e.Typ = PUSH_EVENT) :
    (e.Payload.Size = lit "1" →
      render e = lit "pushed 1 commit to repo '" ++ e.Repo.Name ++ lit "':" ++ lit "\n"
        ++ (pushLoop e.Payload.Commits.length 0 e.Payload.Commits).out) ∧
    (e.Payload.Size ≠ lit "1" →
      render e = lit "pushed " ++ e.Payload.Size ++ lit " commits to repo '" ++ e.Repo.Name
        ++ lit "':" ++ lit "\n" ++ (pushLoop e.Payload.Commits.length 0 e.Payload.Commits).out) := by
  have hp : callPrinter e.Typ e = printPush e := by rw [h]; rfl
  have hl : lit "':\n" = lit "':" ++ lit "\n" := by decide
  constructor
  · intro h1
    simp [render, hp, printPush, bind_eq, Run.bind, print, h1, hl]
  · intro h1
    simp [render, hp, printPush, bind_eq, Run.bind, print, h1, hl]

/-- Witness of C10: the sample push event, whose `size` is "3". -/
theorem render_push_header_witness :
    samplePush.Payload.Size ≠ lit "1" ∧
      render samplePush = lit "pushed " ++ lit "3" ++ lit " commits to repo '" ++ lit "acme/widgets"
        ++ lit "':" ++ lit "\n"
        ++ (pushLoop samplePush.Payload.Commits.length 0 samplePush.Payload.Commits).out :=
  ⟨by decide, (render_push_header samplePush rfl).2 (by decide)⟩

/-! ## Facts about the loops of the wiki and push printers -/

theorem callPrinter_gollum (e : Event) (h : e.Typ = GOLLUM_EVENT) :
    callPrinter e.Typ e = printGollum e := by
  rw [h]; rfl

theorem callPrinter_push (e : Event) (h : e.Typ = PUSH_EVENT) :
    callPrinter e.Typ e = printPush e := by
  rw [h]; rfl

/-! ## Claims about the wiki printer, the empty feed and the actions -/

/-- C13: for a wiki-edit event the rendering starts with the header
"interacted with the following page:" when the list has exactly one page and
with "interacted with the following pages:" otherwise; the line break and the
items written by the loop follow. -/
theorem render_gollum_header (e : Event) (h : e.Typ = GOLLUM_EVENT) :
    (e.Payload.Pages.length = 1 →
      render e = lit "interacted with the following page:" ++ lit "\n"
        ++ (gollumLoop e.Payload.Pages.length 0 e.Payload.Pages).out) ∧
    (e.Payload.Pages.length ≠ 1 →
      render e = lit "interacted with the following pages:" ++ lit "\n"
        ++ (gollumLoop e.Payload.Pages.length 0 e.Payload.Pages).out) := by
  have hp := callPrinter_gollum e h
  have h1 : lit "interacted with the following page:\n"
      = lit "interacted with the following page:" ++ lit "\n" := by decide
  have h2 : lit "interacted with the following pages:\n"
      = lit "interacted with the following pages:" ++ lit "\n" := by decide
  constructor
  · intro hl
    simp [render, hp, printGollum, bind_eq, Run.bind, print, hl, h1, gollumLoop_ok]
  · intro hl
    simp [render, hp, printGollum, bind_eq, Run.bind, print, hl, h2, gollumLoop_ok]

/-- Witness of C13: the sample wiki event has two pages. -/
theorem render_gollum_header_witness :
    sampleGollum.Payload.Pages.length ≠ 1 ∧
      render sampleGollum = lit "interacted with the following pages:" ++ lit "\n"
        ++ (gollumLoop sampleGollum.Payload.Pages.length 0 sampleGollum.Payload.Pages).out :=
  ⟨by decide, (render_gollum_header sampleGollum rfl).2 (by decide)⟩

/-- C16: for every username `u`, formatting the empty list of events returns
`nil` and writes only the header `u`, "'s GitHub activity:" and one line break:
no bullet and no full stop follow. -/
theorem parseUserData_empty (u : GoString) :
    parseUserData u [] = ⟨u ++ lit "'s GitHub activity:" ++ lit "\n", some none⟩ := by
  have h1 : lit "'s GitHub activity:\n" = lit "'s GitHub activity:" ++ lit "\n" := by decide
  simp [parseUserData, parseLoop, bind_eq, Run.bind, print, pure_eq, h1]

/-- C17, as stated, fails: for "alice" and the feed [watch event, event with
the unknown tag "DiscussionEvent"] the output is not empty: the header, the
item of the watch event and the bullet of the failing event are written. -/
theorem parseUserData_atomic_counterexample :
    sampleUnknown.Typ ∉ knownTags ∧
      (parseUserData (lit "alice") [sampleWatch, sampleUnknown]).out ≠ [] ∧
      (parseUserData (lit "alice") [sampleWatch, sampleUnknown]).out =
        lit "alice's GitHub activity:\n• starred repo 'acme/widgets';\n\n• " := by
  decide

/-- C17, amended: the feed formatter writes as it goes.  For every username
`u` and every event list `pre ++ e :: post` in which `e` is the first event
with an unknown tag, the output is not empty: it is the header, the items of
`pre` each followed by ";\n\n", and the bullet "• " of `e`; nothing of `post` is
written. -/
theorem parseUserData_partial_output (u : GoString) (pre post : List Event) (e : Event)
    (hpre : ∀ x ∈ pre, x.Typ ∈ knownTags) (he : e.Typ ∉ knownTags) :
    (parseUserData u (pre ++ e :: post)).out =
        u ++ lit "'s GitHub activity:\n"
          ++ pre.flatMap (fun x => lit "• " ++ render x ++ lit ";\n\n") ++ lit "• "
      ∧ (parseUserData u (pre ++ e :: post)).out ≠ [] := by
  have h := parseLoop_unknown (pre ++ e :: post).length e post he pre 0 hpre (by simp; omega)
  have hout : (parseUserData u (pre ++ e :: post)).out =
      u ++ lit "'s GitHub activity:\n"
        ++ pre.flatMap (fun x => lit "• " ++ render x ++ lit ";\n\n") ++ lit "• " := by
    simp only [parseUserData, bind_eq]
    rw [h]
    simp [Run.bind, print]
  refine ⟨hout, ?_⟩
  rw [hout]
  have hb : lit "• " ≠ [] := by decide
  simp [hb]

/-- Witness of C17 amended: a watch event, the unknown event, a fork event. -/
theorem parseUserData_partial_output_witness :
    (parseUserData (lit "alice") ([sampleWatch] ++ sampleUnknown :: [sampleFork])).out =
        lit "alice" ++ lit "'s GitHub activity:\n"
          ++ [sampleWatch].flatMap (fun x => lit "• " ++ render x ++ lit ";\n\n") ++ lit "• "
      ∧ (parseUserData (lit "alice") ([sampleWatch] ++ sampleUnknown :: [sampleFork])).out ≠ [] :=
  parseUserData_partial_output (lit "alice") [sampleWatch] [sampleFork] sampleUnknown
    (by decide) (by decide)

/-- C19: the rendered form of the action "review_requested" is "requested
review", that of "review_request_removed" is "removed review request", that of
"synchronize" is "synchronized", and every other action value renders as
itself. -/
theorem Action_String_spec (a : Action) :
    Action.String (lit "review_requested") = lit "requested review" ∧
    Action.String (lit "review_request_removed") = lit "removed review request" ∧
    Action.String (lit "synchronize") = lit "synchronized" ∧
    (a ≠ lit "review_requested" → a ≠ lit "review_request_removed" → a ≠ lit "synchronize" →
      Action.String a = a) := by
  refine ⟨by decide, by decide, by decide, ?_⟩
  intro h1 h2 h3
  have e1 : ACT_REVIEW_REQUESTED = lit "review_requested" := rfl
  have e2 : ACT_REVIEW_REQUEST_REMOVED = lit "review_request_removed" := rfl
  have e3 : ACT_SYNCHRONIZE = lit "synchronize" := rfl
  simp [Action.String, e1, e2, e3, h1, h2, h3]

/-- Witness of C19: the action "opened" renders as itself. -/
theorem Action_String_spec_witness : Action.String (lit "opened") = lit "opened" :=
  (Action_String_spec (lit "opened")).2.2.2 (by decide) (by decide) (by decide)

/-! ## The commit lines of a push -/

/-- The loop of the `PUSH_EVENT` printer writes one tree-drawn line for each
distinct commit, in list order, and nothing else. -/
theorem pushLoop_lines (n : Nat) : ∀ (commits : List Commit) (idx : Nat),
    ∃ lines, List.Forall₂ isTreeLine (commits.filter (fun c => c.Distinct)) lines ∧
      pushLoop n idx commits = ⟨lines.flatten, some ()⟩ := by
  intro commits
  induction commits with
  | nil => intro idx; exact ⟨[], by simp, rfl⟩
  | cons c rest ih =>
    intro idx
    obtain ⟨lines, hl, hrec⟩ := ih (idx + 1)
    by_cases hd : c.Distinct = true
    · obtain ⟨s, hs⟩ := Commit_String_isSome c
      by_cases hi : (idx : Int) < (n : Int) - 1
      · refine ⟨(lit "├─ " ++ s ++ lit "\n") :: lines, ?_, ?_⟩
        · rw [List.filter_cons_of_pos (by simpa using hd)]
          exact List.Forall₂.cons ⟨s, hs, Or.inl rfl⟩ hl
        · rw [pushLoop]
          simp [bind_eq, Run.bind, print, println, eval, hd, hi, hs, hrec]
      · refine ⟨(lit "└─ " ++ s) :: lines, ?_, ?_⟩
        · rw [List.filter_cons_of_pos (by simpa using hd)]
          exact List.Forall₂.cons ⟨s, hs, Or.inr rfl⟩ hl
        · rw [pushLoop]
          simp [bind_eq, Run.bind, print, println, eval, hd, hi, hs, hrec]
    · refine ⟨lines, ?_, ?_⟩
      · rw [List.filter_cons_of_neg (by simpa using hd)]
        exact hl
      · rw [pushLoop]
        simp [hd, hrec]

/-- When the last commit of the list is distinct, the loop ends its output
with "└─ " and the one-line form of that commit. -/
theorem pushLoop_last_distinct (n : Nat) (last : Commit) (s : GoString)
    (hd : last.Distinct = true) (hs : Commit.String last = some s) :
    ∀ (init : List Commit) (idx : Nat), idx + init.length + 1 = n →
    ∃ pre, pushLoop n idx (init ++ [last]) = ⟨pre ++ (lit "└─ " ++ s), some ()⟩ := by
  intro init
  induction init with
  | nil =>
    intro idx hn
    have hi : ¬ (idx : Int) < (n : Int) - 1 := by simp at hn; omega
    refine ⟨[], ?_⟩
    rw [List.nil_append, pushLoop]
    simp [bind_eq, Run.bind, print, eval, hd, hi, hs, pushLoop, pure_eq]
  | cons c rest ih =>
    intro idx hn
    obtain ⟨pre, hrec⟩ := ih (idx + 1) (by simp at hn ⊢; omega)
    by_cases hdc : c.Distinct = true
    · obtain ⟨sc, hsc⟩ := Commit_String_isSome c
      by_cases hi : (idx : Int) < (n : Int) - 1
      · refine ⟨lit "├─ " ++ sc ++ lit "\n" ++ pre, ?_⟩
        rw [List.cons_append, pushLoop]
        simp [bind_eq, Run.bind, print, println, eval, hdc, hi, hsc, hrec]
      · refine ⟨lit "└─ " ++ sc ++ pre, ?_⟩
        rw [List.cons_append, pushLoop]
        simp [bind_eq, Run.bind, print, println, eval, hdc, hi, hsc, hrec]
    · refine ⟨pre, ?_⟩
      rw [List.cons_append, pushLoop]
      simp [hdc, hrec]

/-! ## Claims about the push printer -/

/-- C11: for every push event the rendering is the header followed by exactly
one tree-drawn line per commit whose `distinct` flag is true, in list order,
each made of a connector and that commit's one-line form; commits whose flag
is false contribute no text. -/
theorem render_push_lines (e : Event) (h : e.Typ = PUSH_EVENT) :
    ∃ lines, List.Forall₂ isTreeLine (e.Payload.Commits.filter (fun c => c.Distinct)) lines ∧
      lines.length = (e.Payload.Commits.filter (fun c => c.Distinct)).length ∧
      render e =
        (if e.Payload.Size = lit "1" then
            lit "pushed 1 commit to repo '" ++ e.Repo.Name ++ lit "':\n"
          else lit "pushed " ++ e.Payload.Size ++ lit " commits to repo '" ++ e.Repo.Name
            ++ lit "':\n")
        ++ lines.flatten := by
  obtain ⟨lines, hl, hloop⟩ := pushLoop_lines e.Payload.Commits.length e.Payload.Commits 0
  refine ⟨lines, hl, hl.length_eq.symm, ?_⟩
  simp only [render, callPrinter_push e h, printPush, bind_eq]
  rw [hloop]
  split_ifs <;> simp [Run.bind, print]

/-- Witness of C11: the sample push event has 3 commits, the second of which
is not distinct, and 2 tree-drawn lines. -/
theorem render_push_lines_witness :
    samplePush.Payload.Commits.length = 3 ∧
      (samplePush.Payload.Commits.filter (fun c => c.Distinct)).length = 2 ∧
      ∃ lines,
        List.Forall₂ isTreeLine (samplePush.Payload.Commits.filter (fun c => c.Distinct)) lines ∧
        lines.length = (samplePush.Payload.Commits.filter (fun c => c.Distinct)).length ∧
        render samplePush =
          (if samplePush.Payload.Size = lit "1" then
              lit "pushed 1 commit to repo '" ++ samplePush.Repo.Name ++ lit "':\n"
            else lit "pushed " ++ samplePush.Payload.Size ++ lit " commits to repo '"
              ++ samplePush.Repo.Name ++ lit "':\n")
          ++ lines.flatten :=
  ⟨by decide, by decide, render_push_lines samplePush rfl⟩

/-- C12 on the code: a push whose commits are a distinct one followed by one
that is not distinct.  The only rendered commit, hence the last rendered one,
is drawn with the branch connector "├─ " and a line break; the terminal
connector "└─ " does not occur.  In the sample push of three commits, whose
last commit is distinct, the last rendered commit has "└─ ". -/
theorem render_push_tail_skipped :
    render samplePushTail =
        lit "pushed 2 commits to repo 'acme/widgets':\n├─ Commit a1b2c3d (Ann <ann@acme.org>): 'fix typo'\n"
      ∧ render samplePush =
        lit "pushed 3 commits to repo 'acme/widgets':\n├─ Commit a1b2c3d (Ann <ann@acme.org>): 'fix typo'\n└─ Commit c7d8e9f (Ann <ann@acme.org>): 'add tests'" := by
  decide
/-! ## The printer called for each tag -/

theorem callPrinter_commitComment (e : Event) (h : e.Typ = COMMIT_COMMENT_EVENT) :
    callPrinter e.Typ e = printCommitComment e := by
  rw [h]; rfl

theorem callPrinter_create (e : Event) (h : e.Typ = CREATE_EVENT) :
    callPrinter e.Typ e = printCreate e := by
  rw [h]; rfl

theorem callPrinter_delete (e : Event) (h : e.Typ = DELETE_EVENT) :
    callPrinter e.Typ e = printDelete e := by
  rw [h]; rfl

theorem callPrinter_fork (e : Event) (h : e.Typ = FORK_EVENT) :
    callPrinter e.Typ e = printFork e := by
  rw [h]; rfl

theorem callPrinter_issueComment (e : Event) (h : e.Typ = ISSUE_COMMENT_EVENT) :
    callPrinter e.Typ e = printIssueComment e := by
  rw [h]; rfl

theorem callPrinter_issues (e : Event) (h : e.Typ = ISSUES_EVENT) :
    callPrinter e.Typ e = printIssues e := by
  rw [h]; rfl

theorem callPrinter_member (e : Event) (h : e.Typ = MEMBER_EVENT) :
    callPrinter e.Typ e = printMember e := by
  rw [h]; rfl

theorem callPrinter_public (e : Event) (h : e.Typ = PUBLIC_EVENT) :
    callPrinter e.Typ e = printPublic e := by
  rw [h]; rfl

theorem callPrinter_pullRequest (e : Event) (h : e.Typ = PULL_REQUEST_EVENT) :
    callPrinter e.Typ e = printPullRequest e := by
  rw [h]; rfl

theorem callPrinter_pullRequestReview (e : Event) (h : e.Typ = PULL_REQUEST_REVIEW_EVENT) :
    callPrinter e.Typ e = printPullRequestReview e := by
  rw [h]; rfl

theorem callPrinter_pullRequestReviewComment (e : Event) (h : e.Typ = PULL_REQUEST_REVIEW_COMMENT_EVENT) :
    callPrinter e.Typ e = printPullRequestReviewComment e := by
  rw [h]; rfl

theorem callPrinter_pullRequestReviewThread (e : Event) (h : e.Typ = PULL_REQUEST_REVIEW_THREAD_EVENT) :
    callPrinter e.Typ e = printPullRequestReviewThread e := by
  rw [h]; rfl

theorem callPrinter_release (e : Event) (h : e.Typ = RELEASE_EVENT) :
    callPrinter e.Typ e = printRelease e := by
  rw [h]; rfl

theorem callPrinter_sponsorship (e : Event) (h : e.Typ = SPONSORSHIP_EVENT) :
    callPrinter e.Typ e = printSponsorship e := by
  rw [h]; rfl

theorem callPrinter_watch (e : Event) (h : e.Typ = WATCH_EVENT) :
    callPrinter e.Typ e = printWatch e := by
  rw [h]; rfl

/-! ## Claims about the truncation of free text -/

/-- C20: every free-text summary is cut with the constant 32.  The one-line
forms of a pull request and of an issue show `truncate(title, 32)`, that of a
commit `truncate(message, 32)` (after `truncate(SHA, 8)`); the commit-comment,
issue-comment and pull-request-review-comment rules show
`truncate(comment body, 32)`, the pull-request rule `truncate(reason, 32)` when
the action is "dequeued", and the release rule `truncate(release title, 32)`;
the text of `truncate` appears unchanged between the quotes. -/
theorem summaries_truncated_at_32 (pr : PullRequest) (i : Issue) (c : Commit) (e : Event) :
    TRUNC_LEN = 32 ∧
    (∃ t, truncate pr.Title 32 = some t ∧
      PullRequest.String pr = some (lit "PR #" ++ pr.Number ++ lit ": '" ++ t ++ lit "'")) ∧
    (∃ t, truncate i.Title 32 = some t ∧
      Issue.String i = some (lit "Issue #" ++ i.Number ++ lit ": '" ++ t ++ lit "'")) ∧
    (∃ sha t, truncate c.SHA 8 = some sha ∧ truncate c.Message 32 = some t ∧
      Commit.String c = some (lit "Commit " ++ sha ++ lit " (" ++ Author.String c.Author
        ++ lit "): '" ++ t ++ lit "'")) ∧
    (e.Typ = COMMIT_COMMENT_EVENT →
      ∃ t, truncate e.Payload.Comment.Body 32 = some t ∧
        render e = lit "commented on a commit on repo " ++ e.Repo.Name ++ lit ":\n  '" ++ t
          ++ lit "'") ∧
    (e.Typ = ISSUE_COMMENT_EVENT →
      ∃ t s, truncate e.Payload.Comment.Body 32 = some t ∧
        Issue.String e.Payload.Issue = some s ∧
        render e = Action.String e.Payload.Action ++ lit " comment under " ++ s
          ++ lit " on repo '" ++ e.Repo.Name ++ lit "':\n  '" ++ t ++ lit "'") ∧
    (e.Typ = PULL_REQUEST_REVIEW_COMMENT_EVENT →
      ∃ t s, truncate e.Payload.Comment.Body 32 = some t ∧
        PullRequest.String e.Payload.PullRequest = some s ∧
        render e = Action.String e.Payload.Action ++ lit " review comment under " ++ s
          ++ lit ":\n  '" ++ t ++ lit "'") ∧
    (e.Typ = PULL_REQUEST_EVENT → e.Payload.Action = ACT_DEQUEUED →
      ∃ t s, truncate e.Payload.Reason 32 = some t ∧
        PullRequest.String e.Payload.PullRequest = some s ∧
        render e = Action.String e.Payload.Action ++ lit " " ++ s ++ lit " in repo '"
          ++ e.Repo.Name ++ lit "'" ++ lit "\n  reason: '" ++ t ++ lit "'") ∧
    (e.Typ = RELEASE_EVENT →
      ∃ t, truncate e.Payload.Release.Title 32 = some t ∧
        render e = Action.String e.Payload.Action ++ lit " release '" ++ t ++ lit "'") := by
  have h32 : TRUNC_LEN = 32 := rfl
  refine ⟨h32, ?_, ?_, ?_, ?_, ?_, ?_, ?_, ?_⟩
  · obtain ⟨t, ht⟩ := truncate_TRUNC_LEN pr.Title
    rw [h32] at ht
    exact ⟨t, ht, by simp [PullRequest.String, h32, ht]⟩
  · obtain ⟨t, ht⟩ := truncate_TRUNC_LEN i.Title
    rw [h32] at ht
    exact ⟨t, ht, by simp [Issue.String, h32, ht]⟩
  · obtain ⟨t, ht⟩ := truncate_TRUNC_LEN c.Message
    obtain ⟨sha, hsha⟩ := truncate_8 c.SHA
    rw [h32] at ht
    exact ⟨sha, t, hsha, ht, by simp [Commit.String, h32, ht, hsha]⟩
  · intro h
    obtain ⟨t, ht⟩ := truncate_TRUNC_LEN e.Payload.Comment.Body
    rw [h32] at ht
    refine ⟨t, ht, ?_⟩
    simp [render, callPrinter_commitComment e h, printCommitComment, bind_eq, Run.bind, print,
      eval, h32, ht]
  · intro h
    obtain ⟨t, ht⟩ := truncate_TRUNC_LEN e.Payload.Comment.Body
    obtain ⟨s, hs⟩ := Issue_String_isSome e.Payload.Issue
    rw [h32] at ht
    refine ⟨t, s, ht, hs, ?_⟩
    simp [render, callPrinter_issueComment e h, printIssueComment, bind_eq, Run.bind, print,
      eval, h32, ht, hs]
  · intro h
    obtain ⟨t, ht⟩ := truncate_TRUNC_LEN e.Payload.Comment.Body
    obtain ⟨s, hs⟩ := PullRequest_String_isSome e.Payload.PullRequest
    rw [h32] at ht
    refine ⟨t, s, ht, hs, ?_⟩
    simp [render, callPrinter_pullRequestReviewComment e h, printPullRequestReviewComment,
      bind_eq, Run.bind, print, eval, h32, ht, hs]
  · intro h hq
    obtain ⟨t, ht⟩ := truncate_TRUNC_LEN e.Payload.Reason
    obtain ⟨s, hs⟩ := PullRequest_String_isSome e.Payload.PullRequest
    rw [h32] at ht
    refine ⟨t, s, ht, hs, ?_⟩
    simp [render, callPrinter_pullRequest e h, printPullRequest, bind_eq, Run.bind, print,
      eval, h32, ht, hs, hq]
  · intro h
    obtain ⟨t, ht⟩ := truncate_TRUNC_LEN e.Payload.Release.Title
    rw [h32] at ht
    refine ⟨t, ht, ?_⟩
    simp [render, callPrinter_release e h, printRelease, bind_eq, Run.bind, print, eval, h32, ht]

/-- Witness of C20: the sample pull-request event with action "dequeued". -/
theorem summaries_truncated_at_32_witness :
    ∃ t s, truncate sampleDequeued.Payload.Reason 32 = some t ∧
      PullRequest.String sampleDequeued.Payload.PullRequest = some s ∧
      render sampleDequeued = Action.String sampleDequeued.Payload.Action ++ lit " " ++ s
        ++ lit " in repo '" ++ sampleDequeued.Repo.Name ++ lit "'" ++ lit "\n  reason: '" ++ t
        ++ lit "'" :=
  (summaries_truncated_at_32 sampleDequeued.Payload.PullRequest sampleDequeued.Payload.Issue
    (sampleCommit "a1b2c3d" "fix typo" true) sampleDequeued).2.2.2.2.2.2.2.1 rfl rfl

/-! ## The last character of a rendering -/

theorem lit_quote : (lit "'").getLast? = some 0x27 := by decide

theorem PullRequest_String_last (pr : PullRequest) (s : GoString)
    (h : PullRequest.String pr = some s) : s.getLast? = some 0x27 := by
  obtain ⟨t, ht⟩ := truncate_TRUNC_LEN pr.Title
  simp only [PullRequest.String, ht, Option.map_some', Option.some.injEq] at h
  rw [← h]
  simp [lit_quote]

theorem Issue_String_last (i : Issue) (s : GoString)
    (h : Issue.String i = some s) : s.getLast? = some 0x27 := by
  obtain ⟨t, ht⟩ := truncate_TRUNC_LEN i.Title
  simp only [Issue.String, ht, Option.map_some', Option.some.injEq] at h
  rw [← h]
  simp [lit_quote]

theorem Commit_String_last (c : Commit) (s : GoString)
    (h : Commit.String c = some s) : s.getLast? = some 0x27 := by
  obtain ⟨t, ht⟩ := truncate_TRUNC_LEN c.Message
  obtain ⟨u, hu⟩ := truncate_8 c.SHA
  simp only [Commit.String, ht, hu, Option.map_some', Option.some_bind, Option.some.injEq] at h
  rw [← h]
  simp [lit_quote]

theorem printCommitComment_last (e : Event) : ¬ endsWithLineBreak (printCommitComment e).out := by
  obtain ⟨t, ht⟩ := truncate_TRUNC_LEN e.Payload.Comment.Body
  simp [endsWithLineBreak, printCommitComment, bind_eq, Run.bind, print, eval, ht, lit_quote]

theorem printCreate_last (e : Event) : ¬ endsWithLineBreak (printCreate e).out := by
  simp only [printCreate, bind_eq]
  split_ifs <;> simp [endsWithLineBreak, Run.bind, print, pure_eq, lit_quote]

theorem printFork_last (e : Event) : ¬ endsWithLineBreak (printFork e).out := by
  have h : (lit "' repo").getLast? = some 0x6F := by decide
  simp [endsWithLineBreak, printFork, print, h]

theorem printIssueComment_last (e : Event) : ¬ endsWithLineBreak (printIssueComment e).out := by
  obtain ⟨t, ht⟩ := truncate_TRUNC_LEN e.Payload.Comment.Body
  obtain ⟨i, hi⟩ := Issue_String_isSome e.Payload.Issue
  simp [endsWithLineBreak, printIssueComment, bind_eq, Run.bind, print, eval, ht, hi, lit_quote]

theorem printIssues_last (e : Event) : ¬ endsWithLineBreak (printIssues e).out := by
  obtain ⟨i, hi⟩ := Issue_String_isSome e.Payload.Issue
  have hl := Issue_String_last _ _ hi
  simp only [printIssues, bind_eq]
  split_ifs <;> simp [endsWithLineBreak, Run.bind, print, eval, hi, pure_eq, hl]

theorem printMember_last (e : Event) : ¬ endsWithLineBreak (printMember e).out := by
  simp only [printMember]
  split_ifs <;> simp [endsWithLineBreak, print, lit_quote]

theorem printPublic_last (e : Event) : ¬ endsWithLineBreak (printPublic e).out := by
  have h : (lit "' public").getLast? = some 0x63 := by decide
  simp [endsWithLineBreak, printPublic, print, h]

theorem printPullRequest_last (e : Event) : ¬ endsWithLineBreak (printPullRequest e).out := by
  obtain ⟨t, ht⟩ := truncate_TRUNC_LEN e.Payload.Reason
  obtain ⟨i, hi⟩ := PullRequest_String_isSome e.Payload.PullRequest
  simp only [printPullRequest, bind_eq]
  split_ifs <;> simp [endsWithLineBreak, Run.bind, print, eval, hi, ht, pure_eq, lit_quote]

theorem printPullRequestReview_last (e : Event) :
    ¬ endsWithLineBreak (printPullRequestReview e).out := by
  obtain ⟨i, hi⟩ := PullRequest_String_isSome e.Payload.PullRequest
  have hl := PullRequest_String_last _ _ hi
  simp [endsWithLineBreak, printPullRequestReview, bind_eq, Run.bind, print, eval, hi, hl]

theorem printPullRequestReviewComment_last (e : Event) :
    ¬ endsWithLineBreak (printPullRequestReviewComment e).out := by
  obtain ⟨t, ht⟩ := truncate_TRUNC_LEN e.Payload.Comment.Body
  obtain ⟨i, hi⟩ := PullRequest_String_isSome e.Payload.PullRequest
  simp [endsWithLineBreak, printPullRequestReviewComment, bind_eq, Run.bind, print, eval, hi, ht,
    lit_quote]

theorem printRelease_last (e : Event) : ¬ endsWithLineBreak (printRelease e).out := by
  obtain ⟨t, ht⟩ := truncate_TRUNC_LEN e.Payload.Release.Title
  simp [endsWithLineBreak, printRelease, bind_eq, Run.bind, print, eval, ht, lit_quote]

theorem printSponsorship_last (e : Event) : ¬ endsWithLineBreak (printSponsorship e).out := by
  simp [endsWithLineBreak, printSponsorship, print, lit_quote]

theorem printWatch_last (e : Event) : ¬ endsWithLineBreak (printWatch e).out := by
  simp [endsWithLineBreak, printWatch, print, lit_quote]

theorem printDelete_last (e : Event) (h : ¬ endsWithLineBreak e.Payload.RefType) :
    ¬ endsWithLineBreak (printDelete e).out := by
  have hq : (lit "' ").getLast? = some 0x20 := by decide
  unfold endsWithLineBreak at h ⊢
  simp only [printDelete, print, List.getLast?_append, hq]
  cases hr : e.Payload.RefType.getLast? with
  | none => simp
  | some c => rw [hr] at h; simpa using h

theorem printPullRequestReviewThread_last (e : Event)
    (h : ¬ endsWithLineBreak (Action.String e.Payload.Action)) :
    ¬ endsWithLineBreak (printPullRequestReviewThread e).out := by
  obtain ⟨i, hi⟩ := PullRequest_String_isSome e.Payload.PullRequest
  have hq : (lit " as ").getLast? = some 0x20 := by decide
  unfold endsWithLineBreak at h ⊢
  simp only [printPullRequestReviewThread, bind_eq, Run.bind, eval, hi, print,
    List.getLast?_append, hq, List.nil_append]
  cases hr : (Action.String e.Payload.Action).getLast? with
  | none => simp
  | some c => rw [hr] at h; simpa using h

theorem printPush_last (e : Event) (init : List Commit) (last : Commit)
    (hc : e.Payload.Commits = init ++ [last]) (hd : last.Distinct = true) :
    ¬ endsWithLineBreak (printPush e).out := by
  obtain ⟨s, hs⟩ := Commit_String_isSome last
  have hl := Commit_String_last _ _ hs
  obtain ⟨pre, hloop⟩ := pushLoop_last_distinct (init ++ [last]).length last s hd hs init 0
    (by simp)
  simp only [printPush, bind_eq]
  rw [hc, hloop]
  split_ifs <;> simp [endsWithLineBreak, Run.bind, print, hl]

/-! ## Claims about the end of a rendering -/

/-- C15, as stated, fails: a delete event has a known tag, and when its
ref-type is "branch" followed by a line break the rule, which prints the
ref-type as it is at the end of its text, gives "deleted the 'dev' branch"
followed by that line break.  The rendering of the sample wiki event ends with
a line break as well. -/
theorem render_trailing_line_break_counterexample :
    sampleDeleteRaw.Typ ∈ knownTags ∧
      render sampleDeleteRaw = lit "deleted the 'dev' branch\n" ∧
      (render sampleDeleteRaw).getLast? = some 0x0A ∧
      sampleGollum.Typ ∈ knownTags ∧ (render sampleGollum).getLast? = some 0x0A := by
  decide

/-- C15, amended: the rendering does not end with a line break for the 13
tags of `closedTags` whatever the payload, for a delete event whose ref-type
does not end with a line break, for a pull-request-review-thread event whose
rendered action does not end with a line break, and for a push event whose
commit list is not empty and ends with a distinct commit. -/
theorem render_trailing_line_break (e : Event) :
    (e.Typ ∈ closedTags → ¬ endsWithLineBreak (render e)) ∧
    (e.Typ = DELETE_EVENT → ¬ endsWithLineBreak e.Payload.RefType →
      ¬ endsWithLineBreak (render e)) ∧
    (e.Typ = PULL_REQUEST_REVIEW_THREAD_EVENT →
      ¬ endsWithLineBreak (Action.String e.Payload.Action) → ¬ endsWithLineBreak (render e)) ∧
    (e.Typ = PUSH_EVENT →
      (∃ init last, e.Payload.Commits = init ++ [last] ∧ last.Distinct = true) →
      ¬ endsWithLineBreak (render e)) := by
  refine ⟨?_, ?_, ?_, ?_⟩
  · intro h
    simp only [closedTags, List.mem_cons, List.mem_singleton, List.not_mem_nil, or_false] at h
    rcases h with h | h | h | h | h | h | h | h | h | h | h | h | h
    · rw [render, callPrinter_commitComment e h]; exact printCommitComment_last e
    · rw [render, callPrinter_create e h]; exact printCreate_last e
    · rw [render, callPrinter_fork e h]; exact printFork_last e
    · rw [render, callPrinter_issueComment e h]; exact printIssueComment_last e
    · rw [render, callPrinter_issues e h]; exact printIssues_last e
    · rw [render, callPrinter_member e h]; exact printMember_last e
    · rw [render, callPrinter_public e h]; exact printPublic_last e
    · rw [render, callPrinter_pullRequest e h]; exact printPullRequest_last e
    · rw [render, callPrinter_pullRequestReview e h]; exact printPullRequestReview_last e
    · rw [render, callPrinter_pullRequestReviewComment e h]
      exact printPullRequestReviewComment_last e
    · rw [render, callPrinter_release e h]; exact printRelease_last e
    · rw [render, callPrinter_sponsorship e h]; exact printSponsorship_last e
    · rw [render, callPrinter_watch e h]; exact printWatch_last e
  · intro h hr
    rw [render, callPrinter_delete e h]; exact printDelete_last e hr
  · intro h ha
    rw [render, callPrinter_pullRequestReviewThread e h]
    exact printPullRequestReviewThread_last e ha
  · rintro h ⟨init, last, hc, hd⟩
    rw [render, callPrinter_push e h]; exact printPush_last e init last hc hd

/-- Witness of C15 amended: the sample fork event, one of the 13 tags. -/
theorem render_trailing_line_break_witness : ¬ endsWithLineBreak (render sampleFork) :=
  (render_trailing_line_break sampleFork).1 (by decide)

/-! ## The fields a rendering depends on -/

theorem PullRequest_String_congr (p q : PullRequest) (h : prFields p = prFields q) :
    PullRequest.String p = PullRequest.String q := by
  simp only [prFields, Prod.mk.injEq] at h
  simp [PullRequest.String, h.1, h.2]

theorem Issue_String_congr (p q : Issue) (h : issueFields p = issueFields q) :
    Issue.String p = Issue.String q := by
  simp only [issueFields, Prod.mk.injEq] at h
  simp [Issue.String, h.1, h.2]

theorem Page_String_congr (p q : Page) (h : pageFields p = pageFields q) :
    Page.String p = Page.String q := by
  simp only [pageFields, Prod.mk.injEq] at h
  simp [Page.String, h.1, h.2.1, h.2.2]

/-- The loop over the pages depends on the name, action and URL of each page
only. -/
theorem gollumLoop_congr (n : Nat) : ∀ (ps qs : List Page) (idx : Nat),
    ps.map pageFields = qs.map pageFields → gollumLoop n idx ps = gollumLoop n idx qs := by
  intro ps
  induction ps with
  | nil =>
    intro qs idx h
    cases qs with
    | nil => rfl
    | cons q qs => simp at h
  | cons p ps ih =>
    intro qs idx h
    cases qs with
    | nil => simp at h
    | cons q qs =>
      simp only [List.map_cons, List.cons.injEq] at h
      simp only [gollumLoop, Page_String_congr p q h.1, ih qs (idx + 1) h.2]

/-- The loop over the commits depends on the `distinct` flags and, for the
distinct commits, on SHA, author and message only. -/
theorem pushLoop_congr (n : Nat) : ∀ (cs ds : List Commit) (idx : Nat),
    cs.map commitFields = ds.map commitFields → pushLoop n idx cs = pushLoop n idx ds := by
  intro cs
  induction cs with
  | nil =>
    intro ds idx h
    cases ds with
    | nil => rfl
    | cons d ds => simp at h
  | cons c cs ih =>
    intro ds idx h
    cases ds with
    | nil => simp at h
    | cons d ds =>
      simp only [List.map_cons, List.cons.injEq] at h
      have hrec := ih ds (idx + 1) h.2
      have hcd := h.1
      simp only [commitFields] at hcd
      by_cases hc : c.Distinct = true
      · by_cases hd : d.Distinct = true
        · simp only [hc, hd, if_true, Option.some.injEq, Prod.mk.injEq] at hcd
          have hs : Commit.String c = Commit.String d := by
            simp [Commit.String, hcd.1, hcd.2.1, hcd.2.2]
          simp only [pushLoop, hc, hd, hs, hrec]
        · simp [hc, hd] at hcd
      · by_cases hd : d.Distinct = true
        · simp [hc, hd] at hcd
        · simp only [pushLoop, hc, hd, hrec]
          simp

theorem map_length_eq {α β : Type} (f : α → β) (xs ys : List α) (h : xs.map f = ys.map f) :
    xs.length = ys.length := by
  have := congrArg List.length h
  simpa using this

/-! ## Claim about the fields read by the renderer -/

/-- C18: two events with the same known tag that agree on the fields named in
the rule of that tag (`sameRuleFields`) have the same rendering, whatever all
their other fields are. -/
theorem render_reads_rule_fields (e1 e2 : Event) (htag : e1.Typ = e2.Typ)
    (hknown : e1.Typ ∈ knownTags) (hagree : sameRuleFields e1 e2) :
    render e1 = render e2 := by
  obtain ⟨a1, a2, a3, a4, a5, a6, a7, a8, a9, a10, a11, a12, a13, a14, a15, a16, a17⟩ := hagree
  simp only [knownTags, List.mem_cons, List.mem_singleton, List.not_mem_nil, or_false] at hknown
  rcases hknown with h | h | h | h | h | h | h | h | h | h | h | h | h | h | h | h | h
  · obtain ⟨b1, b2⟩ := a1 h
    rw [render, render, callPrinter_commitComment e1 h,
      callPrinter_commitComment e2 (htag ▸ h)]
    simp [printCommitComment, b1, b2]
  · obtain ⟨b1, b2, b3⟩ := a2 h
    rw [render, render, callPrinter_create e1 h, callPrinter_create e2 (htag ▸ h)]
    simp only [printCreate, ← b1, b2]
    split_ifs with hr
    · rw [b3 hr]
    · rfl
  · obtain ⟨b1, b2⟩ := a3 h
    rw [render, render, callPrinter_delete e1 h, callPrinter_delete e2 (htag ▸ h)]
    simp [printDelete, b1, b2]
  · have b1 := a4 h
    rw [render, render, callPrinter_fork e1 h, callPrinter_fork e2 (htag ▸ h)]
    simp [printFork, b1]
  · have b1 := a5 h
    rw [render, render, callPrinter_gollum e1 h, callPrinter_gollum e2 (htag ▸ h)]
    have hl := map_length_eq _ _ _ b1
    simp only [printGollum, ← hl, gollumLoop_congr _ _ _ 0 b1]
  · obtain ⟨b1, b2, b3, b4⟩ := a6 h
    rw [render, render, callPrinter_issueComment e1 h, callPrinter_issueComment e2 (htag ▸ h)]
    simp [printIssueComment, b1, Issue_String_congr _ _ b2, b3, b4]
  · obtain ⟨b1, b2, b3⟩ := a7 h
    rw [render, render, callPrinter_issues e1 h, callPrinter_issues e2 (htag ▸ h)]
    simp only [printIssues, ← b1, Issue_String_congr _ _ b2]
    split_ifs with hr1 hr2
    · rfl
    · rw [b3 hr2]
    · rfl
  · obtain ⟨b1, b2, b3⟩ := a8 h
    rw [render, render, callPrinter_member e1 h, callPrinter_member e2 (htag ▸ h)]
    simp [printMember, b1, b2, b3]
  · have b1 := a9 h
    rw [render, render, callPrinter_public e1 h, callPrinter_public e2 (htag ▸ h)]
    simp [printPublic, b1]
  · obtain ⟨b1, b2, b3, b4⟩ := a10 h
    rw [render, render, callPrinter_pullRequest e1 h, callPrinter_pullRequest e2 (htag ▸ h)]
    simp only [printPullRequest, ← b1, PullRequest_String_congr _ _ b2, b3]
    split_ifs with hr
    · rw [b4 hr]
    · rfl
  · obtain ⟨b1, b2⟩ := a11 h
    rw [render, render, callPrinter_pullRequestReview e1 h,
      callPrinter_pullRequestReview e2 (htag ▸ h)]
    simp [printPullRequestReview, b1, PullRequest_String_congr _ _ b2]
  · obtain ⟨b1, b2, b3⟩ := a12 h
    rw [render, render, callPrinter_pullRequestReviewComment e1 h,
      callPrinter_pullRequestReviewComment e2 (htag ▸ h)]
    simp [printPullRequestReviewComment, b1, PullRequest_String_congr _ _ b2, b3]
  · obtain ⟨b1, b2⟩ := a13 h
    rw [render, render, callPrinter_pullRequestReviewThread e1 h,
      callPrinter_pullRequestReviewThread e2 (htag ▸ h)]
    simp [printPullRequestReviewThread, b1, PullRequest_String_congr _ _ b2]
  · obtain ⟨b1, b2, b3⟩ := a14 h
    rw [render, render, callPrinter_push e1 h, callPrinter_push e2 (htag ▸ h)]
    have hl := map_length_eq _ _ _ b3
    simp only [printPush, ← hl, b1, b2, pushLoop_congr _ _ _ 0 b3]
  · obtain ⟨b1, b2⟩ := a15 h
    rw [render, render, callPrinter_release e1 h, callPrinter_release e2 (htag ▸ h)]
    simp [printRelease, b1, b2]
  · have b1 := a16 h
    rw [render, render, callPrinter_sponsorship e1 h, callPrinter_sponsorship e2 (htag ▸ h)]
    simp [printSponsorship, b1]
  · have b1 := a17 h
    rw [render, render, callPrinter_watch e1 h, callPrinter_watch e2 (htag ▸ h)]
    simp [printWatch, b1]

/-- Witness of C18: two watch events on the same repo, one with the zero
payload and one with other payload fields filled, render alike. -/
theorem render_reads_rule_fields_witness :
    sampleWatch.Payload ≠ sampleWatchBusy.Payload ∧ render sampleWatch = render sampleWatchBusy :=
  ⟨by decide,
    render_reads_rule_fields sampleWatch sampleWatchBusy rfl (by decide)
      (by
        unfold sameRuleFields
        refine ⟨?_, ?_, ?_, ?_, ?_, ?_, ?_, ?_, ?_, ?_, ?_, ?_, ?_, ?_, ?_, ?_, ?_⟩ <;> decide)⟩

/-! ## Claims about the short SHA and the issues, pull-request and create rules -/

/-- C22: for every issues event the rendering is the rendered action, one
space, then "label from " exactly when the action is "labeled" or "unlabeled",
or "user ", the assignee login and " from " exactly when the action is
"assigned" or "unassigned", or nothing for every other action, then the
one-line form of the issue, with nothing else in between. -/
theorem render_issues (e : Event) (h : e.Typ = ISSUES_EVENT) :
    ∃ issue, Issue.String e.Payload.Issue = some issue ∧
      render e = Action.String e.Payload.Action ++ lit " "
        ++ (if e.Payload.Action = lit "labeled" ∨ e.Payload.Action = lit "unlabeled" then
            lit "label from "
          else if e.Payload.Action = lit "assigned" ∨ e.Payload.Action = lit "unassigned" then
            lit "user " ++ e.Payload.Assignee.Login ++ lit " from "
          else [])
        ++ issue := by
  obtain ⟨issue, hi⟩ := Issue_String_isSome e.Payload.Issue
  refine ⟨issue, hi, ?_⟩
  have e1 : ACT_LABELED = lit "labeled" := rfl
  have e2 : ACT_UNLABELED = lit "unlabeled" := rfl
  have e3 : ACT_ASSIGNED = lit "assigned" := rfl
  have e4 : ACT_UNASSIGNED = lit "unassigned" := rfl
  simp only [render, callPrinter_issues e h, printIssues, bind_eq, e1, e2, e3, e4]
  split_ifs <;> simp [Run.bind, print, eval, hi, pure_eq]

/-- Witness of C22: the sample issues event, with action "assigned". -/
theorem render_issues_witness :
    ∃ issue, Issue.String sampleIssues.Payload.Issue = some issue ∧
      render sampleIssues = Action.String sampleIssues.Payload.Action ++ lit " "
        ++ (if sampleIssues.Payload.Action = lit "labeled"
              ∨ sampleIssues.Payload.Action = lit "unlabeled" then
            lit "label from "
          else if sampleIssues.Payload.Action = lit "assigned"
              ∨ sampleIssues.Payload.Action = lit "unassigned" then
            lit "user " ++ sampleIssues.Payload.Assignee.Login ++ lit " from "
          else [])
        ++ issue :=
  render_issues sampleIssues rfl

/-- C23: for every pull-request event the rendering is the rendered action, a
space, the one-line form of the pull request, " in repo '", the repo name and
"'"; it is followed by "\n  reason: '", `truncate(reason, 32)` and "'" when the
action is "dequeued", and by nothing otherwise. -/
theorem render_pull_request (e : Event) (h : e.Typ = PULL_REQUEST_EVENT) :
    ∃ pr reason, PullRequest.String e.Payload.PullRequest = some pr ∧
      truncate e.Payload.Reason 32 = some reason ∧
      render e = Action.String e.Payload.Action ++ lit " " ++ pr ++ lit " in repo '"
        ++ e.Repo.Name ++ lit "'"
        ++ (if e.Payload.Action = lit "dequeued" then lit "\n  reason: '" ++ reason ++ lit "'"
          else []) := by
  obtain ⟨pr, hpr⟩ := PullRequest_String_isSome e.Payload.PullRequest
  obtain ⟨reason, hr⟩ := truncate_TRUNC_LEN e.Payload.Reason
  have h32 : TRUNC_LEN = 32 := rfl
  refine ⟨pr, reason, hpr, by rw [← h32]; exact hr, ?_⟩
  have e1 : ACT_DEQUEUED = lit "dequeued" := rfl
  simp only [render, callPrinter_pullRequest e h, printPullRequest, bind_eq, e1]
  split_ifs <;> simp [Run.bind, print, eval, hpr, hr, pure_eq]

/-- Witness of C23: the sample pull-request event with action "dequeued". -/
theorem render_pull_request_witness :
    ∃ pr reason, PullRequest.String sampleDequeued.Payload.PullRequest = some pr ∧
      truncate sampleDequeued.Payload.Reason 32 = some reason ∧
      render sampleDequeued = Action.String sampleDequeued.Payload.Action ++ lit " " ++ pr
        ++ lit " in repo '" ++ sampleDequeued.Repo.Name ++ lit "'"
        ++ (if sampleDequeued.Payload.Action = lit "dequeued" then
            lit "\n  reason: '" ++ reason ++ lit "'"
          else []) :=
  render_pull_request sampleDequeued rfl

/-- C24: for every create event the rendering is "created a new ", the
ref-type and a space, then "'", the ref and "' on " exactly when the ref-type
is not "repository", then "'", the repo name and "'". -/
theorem render_create (e : Event) (h : e.Typ = CREATE_EVENT) :
    render e = lit "created a new " ++ e.Payload.RefType ++ lit " "
      ++ (if e.Payload.RefType ≠ lit "repository" then lit "'" ++ e.Payload.Ref ++ lit "' on "
        else [])
      ++ lit "'" ++ e.Repo.Name ++ lit "'" := by
  have e1 : RT_REPO = lit "repository" := rfl
  simp only [render, callPrinter_create e h, printCreate, bind_eq, e1]
  split_ifs <;> simp [Run.bind, print, pure_eq]

/-- Witness of C24: the creation of the branch "dev". -/
theorem render_create_witness :
    render sampleCreate = lit "created a new " ++ sampleCreate.Payload.RefType ++ lit " "
      ++ (if sampleCreate.Payload.RefType ≠ lit "repository" then
          lit "'" ++ sampleCreate.Payload.Ref ++ lit "' on "
        else [])
      ++ lit "'" ++ sampleCreate.Repo.Name ++ lit "'" :=
  render_create sampleCreate rfl

/-! ## Claims about the fetch step and the totality of `truncate` -/

/-- C25: when `http.Get` returns a response, a status 404 yields no events and
the error "No such user '<user>'!", which names the requested user; every
other status different from 200 yields no events and the error "Received bad
status code: <status>"; only with status 200 is the body decoded, the events
being returned when the decoding succeeds. -/
theorem fetchFromAPI_status (httpGet : GoString → Except GoString Response)
    (decode : GoString → Except GoString (List Event)) (user : GoString) (res : Response)
    (hget : httpGet (GITHUB_API user) = .ok res) :
    (res.StatusCode = 404 →
      fetchFromAPI httpGet decode user = ([], some (lit "No such user '" ++ user ++ lit "'!"))) ∧
    (res.StatusCode ≠ 404 → res.StatusCode ≠ 200 →
      fetchFromAPI httpGet decode user =
        ([], some (lit "Received bad status code: " ++ res.Status ++ lit "\n"))) ∧
    (res.StatusCode = 200 →
      fetchFromAPI httpGet decode user =
        match decode res.Body with
        | .error err => ([], some err)
        | .ok data => (data, none)) := by
  refine ⟨?_, ?_, ?_⟩
  · intro h
    simp [fetchFromAPI, hget, StatusNotFound, h]
  · intro h1 h2
    simp [fetchFromAPI, hget, StatusNotFound, StatusOK, h1, h2]
  · intro h
    simp [fetchFromAPI, hget, StatusNotFound, StatusOK, h]

/-- Witness of C25: a server that answers "500 Internal Server Error". -/
theorem fetchFromAPI_status_witness :
    fetchFromAPI (fun _ => .ok (sampleResponse 500 "500 Internal Server Error"))
        (fun _ => .ok [sampleWatch]) (lit "alice") =
      ([], some (lit "Received bad status code: " ++ lit "500 Internal Server Error" ++ lit "\n")) :=
  (fetchFromAPI_status (fun _ => .ok (sampleResponse 500 "500 Internal Server Error"))
    (fun _ => .ok [sampleWatch]) (lit "alice") (sampleResponse 500 "500 Internal Server Error")
    rfl).2.1 (by decide) (by decide)

/-- C26: for every text and every limit that is not negative, the `range`
loop ends within as many iterations as the text has bytes (more fuel changes
nothing), and `truncate` returns without panic: either the text itself or a
slice `text[:k]` with `0 ≤ k ≤ len(text)` followed by "...". -/
theorem truncate_total (text : GoString) (limit : Int) (h : 0 ≤ limit) :
    (∀ fuel, text.length ≤ fuel → rangeAux fuel 0 text = rangeString text) ∧
    (truncate text limit = some text ∨
      ∃ k : Nat, k ≤ text.length ∧ truncate text limit = some (text.take k ++ lit "...")) := by
  obtain ⟨L, rfl⟩ : ∃ L : Nat, limit = (L : Int) := ⟨limit.toNat, by omega⟩
  refine ⟨fun fuel hf => rangeAux_fuel fuel text.length 0 text hf (le_refl _), ?_⟩
  rcases truncate_cases text L with h1 | ⟨k, i, r, hk, _, h2⟩ | h3
  · exact Or.inl h1.1
  · have hi := rangeString_index text k i r hk
    exact Or.inr ⟨i, by omega, h2⟩
  · have hb := runeCount_le_length text
    exact Or.inr ⟨L, by omega, h3.2⟩

/-- Witness of C26: a text with multi-byte characters and the limit 0. -/
theorem truncate_total_witness :
    (∀ fuel, (lit "héllo wörld").length ≤ fuel →
      rangeAux fuel 0 (lit "héllo wörld") = rangeString (lit "héllo wörld")) ∧
    (truncate (lit "héllo wörld") 0 = some (lit "héllo wörld") ∨
      ∃ k : Nat, k ≤ (lit "héllo wörld").length ∧
        truncate (lit "héllo wörld") 0 = some ((lit "héllo wörld").take k ++ lit "...")) :=
  truncate_total (lit "héllo wörld") 0 (by decide)

end GithubActivity

namespace Backend

/-! ## Facts about maps -/

theorem GoMap.get_isSome {α : Type} (m : GoMap α) (k : Nat) :
    (GoMap.get m k).isSome = true ↔ k ∈ GoMap.keys m := by
  induction m with
  | nil => simp [GoMap.get, GoMap.keys, List.lookup]
  | cons p m ih =>
    obtain ⟨a, v⟩ := p
    by_cases h : k = a
    · subst h
      simp [GoMap.get, GoMap.keys, List.lookup]
    · have hb : (k == a) = false := beq_false_of_ne h
      simp only [GoMap.get, GoMap.keys, List.lookup, hb, List.map_cons, List.mem_cons, h,
        false_or] at ih ⊢
      exact ih

theorem GoMap.keys_set {α : Type} (m : GoMap α) (k : Nat) (v : α) (h : k ∉ GoMap.keys m) :
    GoMap.keys (GoMap.set m k v) = k :: GoMap.keys m := by
  have hf : m.filter (fun p => decide (p.1 ≠ k)) = m := by
    rw [List.filter_eq_self]
    intro p hp
    have : p.1 ∈ GoMap.keys m := List.mem_map.mpr ⟨p, hp, rfl⟩
    simp only [ne_eq, decide_not, Bool.not_eq_true', decide_eq_false_iff_not]
    intro hk
    exact h (hk ▸ this)
  simp only [GoMap.set, GoMap.keys, List.map_cons, hf]

theorem GoMap.get_set_self {α : Type} (m : GoMap α) (k : Nat) (v : α) :
    GoMap.get (GoMap.set m k v) k = some v := by
  simp [GoMap.get, GoMap.set, List.lookup]

theorem GoMap.get_set_other {α : Type} (m : GoMap α) (k j : Nat) (v : α) (hj : j ≠ k)
    (h : k ∉ GoMap.keys m) : GoMap.get (GoMap.set m k v) j = GoMap.get m j := by
  have hf : m.filter (fun p => decide (p.1 ≠ k)) = m := by
    rw [List.filter_eq_self]
    intro p hp
    have : p.1 ∈ GoMap.keys m := List.mem_map.mpr ⟨p, hp, rfl⟩
    simp only [ne_eq, decide_not, Bool.not_eq_true', decide_eq_false_iff_not]
    intro hk
    exact h (hk ▸ this)
  have hb : (j == k) = false := beq_false_of_ne hj
  simp only [GoMap.get, GoMap.set, List.lookup, hb, hf]

theorem sortedKeys_mem {α : Type} (m : GoMap α) (k : Nat) :
    k ∈ sortedKeys m ↔ k ∈ GoMap.keys m := by
  unfold sortedKeys
  exact List.mem_insertionSort _

/-- The sorted keys of a well-formed map increase strictly. -/
theorem sortedKeys_pairwise {α : Type} (m : GoMap α) (h : GoMap.WF m) :
    (sortedKeys m).Pairwise (fun a b => a < b) := by
  have hs : (sortedKeys m).Sorted (fun a b => a ≤ b) := List.sorted_insertionSort _ _
  have hn : (sortedKeys m).Nodup := (List.perm_insertionSort _ _).nodup_iff.mpr h.1
  exact hs.lt_of_le hn

/-! ## The allocation loop -/

/-- The loop of `addTask` and `addExpense`, entered at the element `cid` that
follows the elements `pre`, all IDs from the smallest one up to `cid` being
present: it ends with an ID that is not in `ids`. -/
theorem allocLoop_fresh (has : Nat → Bool) (ids : List Nat)
    (hs : ids.Pairwise (fun a b => a < b)) (hM : ∀ x ∈ ids, x < uint64Size)
    (hhas : ∀ k, has k = true ↔ k ∈ ids) (hfree : ∃ k, k < uint64Size ∧ k ∉ ids) :
    ∀ (rest pre : List Nat) (cid : Nat), ids = pre ++ cid :: rest →
    (∀ k, (∃ x ∈ ids, x ≤ k) → k ≤ cid → k ∈ ids) →
    ∃ id, allocLoop has ids ((ids.length : Int) - 1) pre.length (cid :: rest) 1 = some id ∧
      id ∉ ids ∧ id < uint64Size := by
  intro rest
  induction rest with
  | nil =>
    intro pre cid hids hinv
    have hcid : cid < uint64Size := hM cid (by rw [hids]; simp)
    have hlen : ((pre.length : Nat) : Int) = (ids.length : Int) - 1 := by
      rw [hids]; simp
    have hle : ∀ x ∈ ids, x ≤ cid := by
      intro x hx
      rw [hids] at hx hs
      rw [List.pairwise_append] at hs
      simp only [List.mem_append, List.mem_singleton] at hx
      rcases hx with hx | hx
      · exact Nat.le_of_lt (hs.2.2 x hx cid (by simp))
      · exact Nat.le_of_eq hx
    rw [allocLoop]
    by_cases h1 : 1 < cid ∧ has (cid - 1) = false
    · rw [if_pos h1]
      refine ⟨cid - 1, rfl, ?_, by omega⟩
      intro hmem
      have := (hhas (cid - 1)).mpr hmem
      rw [h1.2] at this
      cases this
    · rw [if_neg h1, if_pos hlen]
      refine ⟨_, rfl, ?_, Nat.mod_lt _ (by unfold uint64Size; positivity)⟩
      rcases Nat.lt_or_ge (cid + 1) uint64Size with hlt | hge
      · rw [Nat.mod_eq_of_lt hlt]
        intro hmem
        have := hle _ hmem
        omega
      · have heq : cid + 1 = uint64Size := by omega
        rw [heq, Nat.mod_self]
        intro h0
        obtain ⟨k, hk, hkn⟩ := hfree
        exact hkn (hinv k ⟨0, h0, Nat.zero_le _⟩ (by omega))
  | cons next rest ih =>
    intro pre cid hids hinv
    have hcid : cid < uint64Size := hM cid (by rw [hids]; simp)
    have hnext : next < uint64Size := hM next (by rw [hids]; simp)
    have hlen : ¬ ((pre.length : Nat) : Int) = (ids.length : Int) - 1 := by
      rw [hids]; simp; omega
    have hget : ids[pre.length + 1]? = some next := by
      rw [hids, List.getElem?_append_right (by omega)]
      simp
    have hs2 := hs
    rw [hids, List.pairwise_append, List.pairwise_cons, List.pairwise_cons] at hs2
    have hlt_next : cid < next := hs2.2.1.1 next (by simp)
    rw [allocLoop]
    by_cases h1 : 1 < cid ∧ has (cid - 1) = false
    · rw [if_pos h1]
      refine ⟨cid - 1, rfl, ?_, by omega⟩
      intro hmem
      have := (hhas (cid - 1)).mpr hmem
      rw [h1.2] at this
      cases this
    · rw [if_neg h1, if_neg hlen]
      simp only [hget]
      have hmod : (cid + 1) % uint64Size = cid + 1 := Nat.mod_eq_of_lt (by omega)
      rw [hmod]
      by_cases h2 : cid + 1 ≠ next
      · rw [if_pos h2]
        refine ⟨cid + 1, rfl, ?_, by omega⟩
        intro hmem
        rw [hids] at hmem
        simp only [List.mem_append, List.mem_cons] at hmem
        rcases hmem with hm | hm | hm | hm
        · have := hs2.2.2 _ hm cid (by simp)
          omega
        · omega
        · omega
        · have := hs2.2.1.2.1 _ hm
          omega
      · rw [if_neg h2]
        have heq : next = cid + 1 := by omega
        have hids2 : ids = (pre ++ [cid]) ++ next :: rest := by
          rw [hids]; simp
        have hinv2 : ∀ k, (∃ x ∈ ids, x ≤ k) → k ≤ next → k ∈ ids := by
          intro k hx hk
          rcases Nat.lt_or_ge cid k with hlt | hge
          · have : k = next := by omega
            rw [this, hids]; simp
          · exact hinv k hx hge
        have := ih (pre ++ [cid]) next hids2 hinv2
        simpa using this

/-- The ID chosen for a well-formed map that does not hold every `uint64`: a
`uint64` that is not a key of the map. -/
theorem nextID_fresh {α : Type} (m : GoMap α) (hwf : GoMap.WF m)
    (hfree : ∃ k, k < uint64Size ∧ k ∉ GoMap.keys m) :
    ∃ id, nextID m = some id ∧ id ∉ GoMap.keys m ∧ id < uint64Size := by
  have hs := sortedKeys_pairwise m hwf
  have hM : ∀ x ∈ sortedKeys m, x < uint64Size :=
    fun x hx => hwf.2 x ((sortedKeys_mem m x).mp hx)
  have hhas : ∀ k, (fun k => (GoMap.get m k).isSome) k = true ↔ k ∈ sortedKeys m :=
    fun k => (GoMap.get_isSome m k).trans (sortedKeys_mem m k).symm
  have hfree2 : ∃ k, k < uint64Size ∧ k ∉ sortedKeys m := by
    obtain ⟨k, hk, hkn⟩ := hfree
    exact ⟨k, hk, fun h => hkn ((sortedKeys_mem m k).mp h)⟩
  unfold nextID
  simp only []
  cases hids : sortedKeys m with
  | nil =>
    refine ⟨1, rfl, ?_, by unfold uint64Size; norm_num⟩
    intro h1
    have := (sortedKeys_mem m 1).mpr h1
    rw [hids] at this
    cases this
  | cons cid rest =>
    rw [hids] at hs hM hhas hfree2
    have hinv : ∀ k, (∃ x ∈ cid :: rest, x ≤ k) → k ≤ cid → k ∈ cid :: rest := by
      rintro k ⟨x, hx, hxk⟩ hk
      rw [List.pairwise_cons] at hs
      simp only [List.mem_cons] at hx
      rcases hx with hx | hx
      · have : k = cid := by omega
        rw [this]; simp
      · have := hs.1 x hx
        omega
    obtain ⟨id, hid, hn, hlt⟩ :=
      allocLoop_fresh _ (cid :: rest) hs hM hhas hfree2 rest [] cid rfl hinv
    refine ⟨id, hid, ?_, hlt⟩
    intro hmem
    have := (sortedKeys_mem m id).mpr hmem
    rw [hids] at this
    exact hn this

/-- Assigning to a key that is not in a well-formed map gives a well-formed
map, provided the key is a `uint64`. -/
theorem GoMap.WF_set {α : Type} (m : GoMap α) (k : Nat) (v : α) (hwf : GoMap.WF m)
    (hk : k < uint64Size) (h : k ∉ GoMap.keys m) : GoMap.WF (GoMap.set m k v) := by
  unfold GoMap.WF
  rw [GoMap.keys_set m k v h]
  refine ⟨List.nodup_cons.mpr ⟨h, hwf.1⟩, ?_⟩
  intro j hj
  simp only [List.mem_cons] at hj
  rcases hj with rfl | hj
  · exact hk
  · exact hwf.2 j hj

/-- What assigning a value to a fresh key does to a map: one more key, the
other entries unchanged. -/
theorem GoMap.set_fresh {α : Type} (m : GoMap α) (k : Nat) (v : α) (hwf : GoMap.WF m)
    (hk : k < uint64Size) (h : k ∉ GoMap.keys m) :
    GoMap.keys (GoMap.set m k v) = k :: GoMap.keys m ∧
      (GoMap.keys (GoMap.set m k v)).length = (GoMap.keys m).length + 1 ∧
      (∀ j ∈ GoMap.keys m, GoMap.get (GoMap.set m k v) j = GoMap.get m j) ∧
      GoMap.get (GoMap.set m k v) k = some v ∧ GoMap.WF (GoMap.set m k v) := by
  refine ⟨GoMap.keys_set m k v h, by rw [GoMap.keys_set m k v h]; simp, ?_,
    GoMap.get_set_self m k v, GoMap.WF_set m k v hwf hk h⟩
  intro j hj
  exact GoMap.get_set_other m k j v (fun hjk => h (hjk ▸ hj)) h

/-! ## Claim about the allocation of IDs -/

open TaskCli ExpenseTracker in
/-- C27: for a task store that is a well-formed map and does not hold every
64-bit ID, `addTask` returns without panic, the ID it chooses is a `uint64`
that is not a key of the store before the call, and after the call the store
has exactly that one key more, holds the new task under it, and every
pre-existing entry is unchanged; the same holds for `addExpense` on the
expense store. -/
theorem add_never_overwrites {F : Type} (ops : Float64Ops F) (t : Tasks) (e : Expenses F)
    (desc : String) (amount : F) (now1 now2 : Time)
    (hwt : GoMap.WF t.Tasks) (hft : ∃ k, k < uint64Size ∧ k ∉ GoMap.keys t.Tasks)
    (hwe : GoMap.WF e.Expenses) (hfe : ∃ k, k < uint64Size ∧ k ∉ GoMap.keys e.Expenses) :
    (∃ id t1 out, addTask t desc now1 now2 = some (t1, out) ∧
      id < uint64Size ∧ id ∉ GoMap.keys t.Tasks ∧
      GoMap.keys t1.Tasks = id :: GoMap.keys t.Tasks ∧
      (GoMap.keys t1.Tasks).length = (GoMap.keys t.Tasks).length + 1 ∧
      (∀ j ∈ GoMap.keys t.Tasks, GoMap.get t1.Tasks j = GoMap.get t.Tasks j) ∧
      GoMap.get t1.Tasks id = some (createTask id desc now1 now2) ∧ GoMap.WF t1.Tasks) ∧
    (∃ id e1 out, addExpense ops e desc amount now1 = some (e1, id, out) ∧
      id < uint64Size ∧ id ∉ GoMap.keys e.Expenses ∧
      GoMap.keys e1.Expenses = id :: GoMap.keys e.Expenses ∧
      (GoMap.keys e1.Expenses).length = (GoMap.keys e.Expenses).length + 1 ∧
      (∀ j ∈ GoMap.keys e.Expenses, GoMap.get e1.Expenses j = GoMap.get e.Expenses j) ∧
      GoMap.get e1.Expenses id = some (createExpense ops id desc amount now1) ∧
      GoMap.WF e1.Expenses ∧ e1.Limits = e.Limits) := by
  constructor
  · obtain ⟨id, hid, hn, hlt⟩ := nextID_fresh t.Tasks hwt hft
    obtain ⟨h1, h2, h3, h4, h5⟩ :=
      GoMap.set_fresh t.Tasks id (createTask id desc now1 now2) hwt hlt hn
    refine ⟨id, { Tasks := GoMap.set t.Tasks id (createTask id desc now1 now2) },
      "Task added successfully! ID: " ++ toString id ++ "\n", ?_, hlt, hn, h1, h2, h3, h4, h5⟩
    simp only [addTask, hid]
  · obtain ⟨id, hid, hn, hlt⟩ := nextID_fresh e.Expenses hwe hfe
    obtain ⟨h1, h2, h3, h4, h5⟩ :=
      GoMap.set_fresh e.Expenses id (createExpense ops id desc amount now1) hwe hlt hn
    refine ⟨id,
      { e with Expenses := GoMap.set e.Expenses id (createExpense ops id desc amount now1) },
      "Expense added successfully (ID: " ++ toString id ++ ")\n", ?_, hlt, hn, h1, h2, h3, h4,
      h5, rfl⟩
    simp only [addExpense, hid]

open TaskCli ExpenseTracker in
/-- Witness of C27: the task store with the IDs 4, 1 and 2 and the empty
expense store. -/
theorem add_never_overwrites_witness :
    (∃ id t1 out, addTask sampleTasks "c" ⟨3, 50⟩ ⟨3, 51⟩ = some (t1, out) ∧
      id < uint64Size ∧ id ∉ GoMap.keys sampleTasks.Tasks ∧
      GoMap.keys t1.Tasks = id :: GoMap.keys sampleTasks.Tasks ∧
      (GoMap.keys t1.Tasks).length = (GoMap.keys sampleTasks.Tasks).length + 1 ∧
      (∀ j ∈ GoMap.keys sampleTasks.Tasks, GoMap.get t1.Tasks j = GoMap.get sampleTasks.Tasks j) ∧
      GoMap.get t1.Tasks id = some (createTask id "c" ⟨3, 50⟩ ⟨3, 51⟩) ∧ GoMap.WF t1.Tasks) ∧
    (∃ id e1 out, addExpense sampleOps sampleExpenses "c" 5 ⟨3, 50⟩ = some (e1, id, out) ∧
      id < uint64Size ∧ id ∉ GoMap.keys sampleExpenses.Expenses ∧
      GoMap.keys e1.Expenses = id :: GoMap.keys sampleExpenses.Expenses ∧
      (GoMap.keys e1.Expenses).length = (GoMap.keys sampleExpenses.Expenses).length + 1 ∧
      (∀ j ∈ GoMap.keys sampleExpenses.Expenses,
        GoMap.get e1.Expenses j = GoMap.get sampleExpenses.Expenses j) ∧
      GoMap.get e1.Expenses id = some (createExpense sampleOps id "c" 5 ⟨3, 50⟩) ∧
      GoMap.WF e1.Expenses ∧ e1.Limits = sampleExpenses.Limits) :=
  add_never_overwrites sampleOps sampleTasks sampleExpenses "c" 5 ⟨3, 50⟩ ⟨3, 51⟩
    (by unfold GoMap.WF; decide) ⟨3, by decide, by decide⟩
    (by unfold GoMap.WF; decide) ⟨1, by decide, by decide⟩

end Backend

namespace ExpenseTracker

open Backend

/-! ## The monthly limits -/

theorem limitAt_twelve {F : Type} (e : Expenses F) : limitAt e 12 = none := by
  simp [limitAt]

/-- The lookup of `getAmountOverLimit` for December is out of range. -/
theorem getAmountOverLimit_december {F : Type} (ops : Float64Ops F) (e : Expenses F) :
    getAmountOverLimit ops e 12 = none := by
  simp [getAmountOverLimit, limitAt_twelve]

/-- The check of month `m` depends on the expenses and on the entry `m` of
the table only. -/
theorem getAmountOverLimit_congr {F : Type} (ops : Float64Ops F) (e1 e2 : Expenses F) (m : Int)
    (hE : e1.Expenses = e2.Expenses) (hL : limitAt e1 m = limitAt e2 m) :
    getAmountOverLimit ops e1 m = getAmountOverLimit ops e2 m := by
  simp only [getAmountOverLimit, getSummaryByMonth, hE, hL]

/-- For a month `m` from 1 to 12 and a positive amount, `HandleSetLimit` with
`--month m` writes the entry `m - 1` of the table and succeeds, and the check
`getAmountOverLimit(m)`, which reads the entry `m`, gives the same result
after it as before. -/
theorem HandleSetLimit_month {F : Type} (ops : Float64Ops F) (e : Expenses F) (amount : F)
    (m : Int) (h1 : 1 ≤ m) (h12 : m ≤ 12) (hpos : ops.le amount ops.zero = false) :
    ∃ i : Fin 12, ((i : Nat) : Int) = m - 1 ∧
      (HandleSetLimit ops e true amount true m).store.Limits = Function.update e.Limits i amount ∧
      (HandleSetLimit ops e true amount true m).store.Expenses = e.Expenses ∧
      (HandleSetLimit ops e true amount true m).res = some none ∧
      getAmountOverLimit ops (HandleSetLimit ops e true amount true m).store m =
        getAmountOverLimit ops e m := by
  have hm : ¬ (m < 1 ∨ m > 12) := by omega
  have hstore : (HandleSetLimit ops e true amount true m) =
      ⟨{ e with Limits := Function.update e.Limits ⟨(m - 1).toNat, by omega⟩ amount },
        "Set monthly spending limit successfully\n", some none⟩ := by
    simp [HandleSetLimit, getAmount, hpos, hm]
  refine ⟨⟨(m - 1).toNat, by omega⟩, by simp; omega, ?_, ?_, ?_, ?_⟩
  · rw [hstore]
  · rw [hstore]
  · rw [hstore]
  · rw [hstore]
    apply getAmountOverLimit_congr
    · rfl
    · unfold limitAt
      by_cases h : 0 ≤ m ∧ m < 12
      · rw [dif_pos h, dif_pos h]
        congr 1
        apply Function.update_noteq
        intro heq
        have := congrArg Fin.val heq
        simp at this
        omega
      · rw [dif_neg h, dif_neg h]

/-- Adding an expense in December panics in the limit check, after the
expense was put into the store. -/
theorem HandleAdd_december {F : Type} (ops : Float64Ops F) (e : Expenses F)
    (description : String) (amount : F) (now : Time) (hnow : now.month = 12)
    (hpos : ops.le amount ops.zero = false) (hwf : GoMap.WF e.Expenses)
    (hfree : ∃ k, k < uint64Size ∧ k ∉ GoMap.keys e.Expenses) :
    (HandleAdd ops e description true amount now).res = none := by
  obtain ⟨id, hid, _, _⟩ := nextID_fresh e.Expenses hwf hfree
  simp [HandleAdd, hpos, addExpense, hid, GoMap.get_set_self, createExpense, hnow,
    getAmountOverLimit_december]

/-! ## Claim about the monthly limits -/

/-- C28 on the code: on a store without expenses and limits, `set-limit
--month 12 --amount 100` succeeds and writes entry 11 of the table, but the
check for December reads entry 12, outside the table: `getAmountOverLimit(12)`
panics and so does adding an expense in December.  After `set-limit --month 1
--amount 100`, which writes entry 0, the check for January reads entry 1,
still 0, and reports `NOT_OVER` (-1) for an expense of 150. -/
theorem limits_lookup_off_by_one :
    (HandleSetLimit sampleOps sampleExpenses true 100 true 12).res = some none ∧
    (HandleSetLimit sampleOps sampleExpenses true 100 true 12).store.Limits 11 = 100 ∧
    getAmountOverLimit sampleOps
      (HandleSetLimit sampleOps sampleExpenses true 100 true 12).store 12 = none ∧
    (HandleAdd sampleOps (HandleSetLimit sampleOps sampleExpenses true 100 true 12).store
      "gift" true 150 ⟨12, 0⟩).res = none ∧
    (HandleSetLimit sampleOps sampleExpenses true 100 true 1).store.Limits 0 = 100 ∧
    (HandleSetLimit sampleOps sampleExpenses true 100 true 1).store.Limits 1 = 0 ∧
    (HandleAdd sampleOps (HandleSetLimit sampleOps sampleExpenses true 100 true 1).store
      "gift" true 150 ⟨1, 0⟩).res = some none ∧
    (HandleAdd sampleOps (HandleSetLimit sampleOps sampleExpenses true 100 true 1).store
      "gift" true 150 ⟨1, 0⟩).out = "Expense added successfully (ID: 1)\n" ∧
    getAmountOverLimit sampleOps
      (HandleAdd sampleOps (HandleSetLimit sampleOps sampleExpenses true 100 true 1).store
        "gift" true 150 ⟨1, 0⟩).store 1 = some (-1) := by
  decide

end ExpenseTracker
